import Mathlib

/-!
Verification of the Axons memory-graph system (`src/axons/`).

This file shallowly embeds the parts of the code that the claims C1-C10 talk
about and proves or refutes each claim.

Modelling conventions:
* Python floats are modelled as rationals (`ℚ`); every Python float value is a
  rational, and none of the operations relevant to the claims other than float
  `**` leave `ℚ`.  The single transcendental operation, float `x ** y` in the
  EXPONENTIAL plasticity curve, is modelled by an explicit parameter
  `qpow : ℚ → ℚ → ℚ` threaded through the curve functions; no claim depends on
  its values, and this keeps every definition executable.
* The Neo4j-style graph used by `MemoryGraphClient` is modelled by
  `GraphState`: node existence, memory permeability, compartment membership,
  the `RELATES_TO` edge map, the `HAS_CONCEPT` relevance map, and the
  `Preference` rows.  Each Cypher query in the source is translated to the
  corresponding pure update of this state.
* Python `None` becomes `Option`, Python truthiness of floats/strings is made
  explicit (`pyTruthy`, `pyOrFloat`, `pyOrOpt`), and a raised Python exception
  (`ValueError` from `_validate_range`, `TypeError` from `None ** x`) becomes
  `Except.error`.
-/

namespace Axons

/-- The `Permeability` enum (`src/axons/enums.py`). -/
inductive Permeability where
  | OPEN
  | CLOSED
  | OSMOTIC_INWARD
  | OSMOTIC_OUTWARD
deriving DecidableEq, Repr

/-- `Permeability.allows_inward`: `self in (OPEN, OSMOTIC_INWARD)`. -/
def Permeability.allows_inward : Permeability → Bool
  | .OPEN => true
  | .OSMOTIC_INWARD => true
  | _ => false

/-- `Permeability.allows_outward`: `self in (OPEN, OSMOTIC_OUTWARD)`. -/
def Permeability.allows_outward : Permeability → Bool
  | .OPEN => true
  | .OSMOTIC_OUTWARD => true
  | _ => false

/-- The `Curve` enum (`src/axons/enums.py`). -/
inductive Curve where
  | LINEAR
  | EXPONENTIAL
  | LOGARITHMIC
deriving DecidableEq, Repr

/-- The five plasticity context strings accepted by
`PlasticityConfig.effective_amount` (`src/axons/plasticity.py`). -/
inductive PlasticityContext where
  | strengthen
  | weaken
  | hebbian
  | retrieval
  | decay
deriving DecidableEq, Repr

/-- `PlasticityConfig` (`src/axons/plasticity.py`), with the source's default
values.  `semantic_similarity_fn` models `_semantic_similarity_fn`; a callback
that would raise is outside the model (the source falls back to the base
strength in that case, and no claim exercises the callback). -/
structure PlasticityConfig where
  learning_rate : ℚ := 1
  strengthen_amount : ℚ := 1/10
  weaken_amount : ℚ := 1/10
  hebbian_amount : ℚ := 1/20
  retrieval_amount : ℚ := 1/50
  decay_amount : ℚ := 1/20
  initial_strength_explicit : ℚ := 1/2
  initial_strength_implicit : ℚ := 3/10
  use_semantic_similarity : Bool := false
  semantic_similarity_fn : Option (String → String → ℚ) := none
  max_strength : ℚ := 1
  min_strength : ℚ := 0
  curve : Curve := Curve.LINEAR
  curve_steepness : ℚ := 1/2
  decay_curve : Curve := Curve.EXPONENTIAL
  decay_half_life : ℚ := 1/10
  decay_threshold : ℚ := 1/2
  decay_all : Bool := false
  prune_threshold : ℚ := 1/100
  auto_prune : Bool := true
  retrieval_strengthens : Bool := true
  retrieval_weakens_competitors : Bool := false
  competitor_distance : ℚ := 1/10
  hebbian_creates_connections : Bool := true

/-- The per-context base amount: the `amounts` dictionary inside
`effective_amount`.  The dictionary's `0.1` default is unreachable because the
context argument is restricted to the five known contexts. -/
def PlasticityContext.baseAmount (cfg : PlasticityConfig) : PlasticityContext → ℚ
  | .strengthen => cfg.strengthen_amount
  | .weaken => cfg.weaken_amount
  | .hebbian => cfg.hebbian_amount
  | .retrieval => cfg.retrieval_amount
  | .decay => cfg.decay_amount

/-- `for_increase = context in ('strengthen', 'hebbian', 'retrieval')`. -/
def PlasticityContext.forIncrease : PlasticityContext → Bool
  | .strengthen => true
  | .hebbian => true
  | .retrieval => true
  | .weaken => false
  | .decay => false

/-- `PlasticityConfig._apply_curve`.  `qpow x y` models Python float `x ** y`. -/
def PlasticityConfig.applyCurve (qpow : ℚ → ℚ → ℚ) (cfg : PlasticityConfig)
    (amount current_strength : ℚ) (for_increase : Bool) : ℚ :=
  if cfg.curve = Curve.LINEAR then
    amount
  else
    let steepness := max (1/10) (min (9/10) cfg.curve_steepness)
    let exponent := 1 / steepness
    if cfg.curve = Curve.EXPONENTIAL then
      let factor := if for_increase then 1 - qpow current_strength exponent
                    else qpow current_strength exponent
      amount * max (1/10) factor
    else
      let factor := if for_increase then (1 - steepness) + current_strength * steepness
                    else steepness + (1 - current_strength) * (1 - steepness)
      amount * factor

/-- `PlasticityConfig.effective_amount`. -/
def PlasticityConfig.effectiveAmount (qpow : ℚ → ℚ → ℚ) (cfg : PlasticityConfig)
    (context : PlasticityContext) (current_strength : ℚ) : ℚ :=
  let base := context.baseAmount cfg * cfg.learning_rate
  cfg.applyCurve qpow base current_strength context.forIncrease

/-- `PlasticityConfig.get_initial_strength`.  The semantic-similarity branch
fires only when the flag is set, a callback is present, and both contents are
truthy (non-`None`, non-empty) strings, exactly as in the source. -/
def PlasticityConfig.getInitialStrength (cfg : PlasticityConfig) (explicit : Bool)
    (content1 content2 : Option String) : ℚ :=
  let base := if explicit then cfg.initial_strength_explicit else cfg.initial_strength_implicit
  let base :=
    match cfg.semantic_similarity_fn, content1, content2 with
    | some fn, some c1, some c2 =>
      if cfg.use_semantic_similarity ∧ c1 ≠ "" ∧ c2 ≠ "" then
        base + (cfg.max_strength - base) * fn c1 c2
      else base
    | _, _, _ => base
  min cfg.max_strength (max cfg.min_strength base)

/-- One row of `get_memory_compartments`: the dict
`{id, name, permeability, allowExternalConnections}` returned by the Cypher
query in `client.py`.  Compartment rows always carry a concrete permeability
column, so the `comp.get("permeability", "open")` default in
`permeability.py` is modelled by the field itself. -/
structure Compartment where
  id : String
  name : String
  permeability : Permeability
  allowExternalConnections : Bool
deriving DecidableEq, Repr

/-- A `RELATES_TO` edge's properties (`strength`, `relType`, `permeability`). -/
structure Edge where
  strength : ℚ
  relType : String
  permeability : Permeability
deriving DecidableEq, Repr

/-- A stored `Preference` node's mutable columns. -/
structure PrefRow where
  id : String
  category : String
  preference : String
  strength : ℚ
  observations : ℕ
deriving DecidableEq, Repr

/-- The graph-store state seen through the queries the claims exercise. -/
@[ext]
structure GraphState where
  memExists : String → Bool
  memPerm : String → Option Permeability
  memComps : String → List Compartment
  edges : String × String → Option Edge
  conceptRel : String × String → Option ℚ
  prefs : List PrefRow

/-- `get_memory_compartments` (`client.py`): all compartments a memory is in. -/
def GraphState.getMemoryCompartments (st : GraphState) (memory_id : String) :
    List Compartment :=
  st.memComps memory_id

/-- `get_memory_permeability` (`permeability.py`): `none` when the Memory node
is missing or its permeability column is null. -/
def GraphState.getMemoryPermeability (st : GraphState) (memory_id : String) :
    Option Permeability :=
  st.memPerm memory_id

/-- `PermeabilityMixin.can_form_connection`. -/
def can_form_connection (st : GraphState) (memory_id_1 memory_id_2 : String) : Bool :=
  let comps1 := st.getMemoryCompartments memory_id_1
  let comps2 := st.getMemoryCompartments memory_id_2
  if comps1 = [] ∧ comps2 = [] then true
  else
    let ids1 := (comps1.map Compartment.id).toFinset
    let ids2 := (comps2.map Compartment.id).toFinset
    if ids1 = ids2 ∧ ids1 ≠ ∅ then true
    else if comps1.any (fun c => !c.allowExternalConnections) then false
    else if comps2.any (fun c => !c.allowExternalConnections) then false
    else true

/-- `PermeabilityMixin.can_data_flow`.  A missing memory-level permeability
(`None`) is falsy in Python, so that layer passes. -/
def can_data_flow (st : GraphState) (from_id to_id : String)
    (connection_permeability : Option Permeability) : Bool :=
  if (st.getMemoryPermeability from_id).any (fun p => !p.allows_outward) then false
  else if (st.getMemoryPermeability to_id).any (fun p => !p.allows_inward) then false
  else if (st.getMemoryCompartments from_id).any (fun c => !c.permeability.allows_outward) then
    false
  else if (st.getMemoryCompartments to_id).any (fun c => !c.permeability.allows_inward) then
    false
  else
    match connection_permeability with
    | some cp => cp.allows_inward
    | none => true

/-- `get_memory_link_strength`. -/
def get_memory_link_strength (st : GraphState) (memory_id_1 memory_id_2 : String) :
    Option ℚ :=
  (st.edges (memory_id_1, memory_id_2)).map Edge.strength

/-- Python `x or d` for a float-or-`None` `x` (`0.0` is falsy). -/
def pyOrFloat : Option ℚ → ℚ → ℚ
  | some v, d => if v = 0 then d else v
  | none, d => d

/-- Python truthiness of a float-or-`None`. -/
def pyTruthy : Option ℚ → Bool
  | some v => v != 0
  | none => false

/-- Python `a or b` for float-or-`None` operands. -/
def pyOrOpt : Option ℚ → Option ℚ → Option ℚ
  | some v, y => if v = 0 then y else some v
  | none, y => y

/-- `MemoryGraphClient.link_memories`.  `_validate_range(strength, 0.0, 1.0)`
raises `ValueError` (modelled as `Except.error`) before any write; the
`MERGE ... ON CREATE SET` writes the properties only when no edge existed, and
only when both `MATCH`ed Memory nodes exist; the permeability stored for a
`None` argument is `OPEN`. -/
def link_memories (st : GraphState) (memory_id_1 memory_id_2 : String) (strength : ℚ)
    (rel_type : String) (permeability : Option Permeability) (check_compartments : Bool) :
    Except String (Bool × GraphState) :=
  if strength < 0 ∨ 1 < strength then
    Except.error "strength must be between 0.0 and 1.0"
  else if check_compartments && !(can_form_connection st memory_id_1 memory_id_2) then
    Except.ok (false, st)
  else
    let perm_value := permeability.getD Permeability.OPEN
    if st.memExists memory_id_1 && st.memExists memory_id_2 then
      match st.edges (memory_id_1, memory_id_2) with
      | some _ => Except.ok (true, st)
      | none =>
        let edges' := fun k =>
          if k = (memory_id_1, memory_id_2) then some ⟨strength, rel_type, perm_value⟩
          else st.edges k
        Except.ok (true, { st with edges := edges' })
    else Except.ok (true, st)

/-- `MemoryGraphClient.strengthen_memory_link`.  The `CASE` clamp against
`max_strength` is evaluated on the stored strength. -/
def strengthen_memory_link (qpow : ℚ → ℚ → ℚ) (cfg : PlasticityConfig) (st : GraphState)
    (memory_id_1 memory_id_2 : String) (amount : Option ℚ) : GraphState :=
  let current := pyOrFloat (get_memory_link_strength st memory_id_1 memory_id_2) 0
  let effective_amount :=
    match amount with
    | none => cfg.effectiveAmount qpow PlasticityContext.strengthen current
    | some a => a * cfg.learning_rate
  if effective_amount ≤ 0 then st
  else
    let edges' := fun k =>
      if k = (memory_id_1, memory_id_2) then
        (st.edges k).map (fun e =>
          { e with strength :=
              if cfg.max_strength < e.strength + effective_amount then cfg.max_strength
              else e.strength + effective_amount })
      else st.edges k
    { st with edges := edges' }

/-- `MemoryGraphClient.weaken_memory_link`. -/
def weaken_memory_link (qpow : ℚ → ℚ → ℚ) (cfg : PlasticityConfig) (st : GraphState)
    (memory_id_1 memory_id_2 : String) (amount : Option ℚ) : GraphState :=
  let current := pyOrFloat (get_memory_link_strength st memory_id_1 memory_id_2) 1
  let effective_amount :=
    match amount with
    | none => cfg.effectiveAmount qpow PlasticityContext.weaken current
    | some a => a * cfg.learning_rate
  if effective_amount ≤ 0 then st
  else
    let edges' := fun k =>
      if k = (memory_id_1, memory_id_2) then
        (st.edges k).map (fun e =>
          { e with strength :=
              if e.strength - effective_amount < cfg.min_strength then cfg.min_strength
              else e.strength - effective_amount })
      else st.edges k
    { st with edges := edges' }

/-- `MemoryGraphClient.strengthen_concept_relevance` (clamped to `1.0`). -/
def strengthen_concept_relevance (qpow : ℚ → ℚ → ℚ) (cfg : PlasticityConfig)
    (st : GraphState) (memory_id concept_id : String) (amount : Option ℚ) : GraphState :=
  let amount :=
    match amount with
    | none => cfg.effectiveAmount qpow PlasticityContext.strengthen (1/2)
    | some a => a
  if amount ≤ 0 then st
  else
    let rel' := fun k =>
      if k = (memory_id, concept_id) then
        (st.conceptRel k).map (fun r => if 1 < r + amount then 1 else r + amount)
      else st.conceptRel k
    { st with conceptRel := rel' }

/-- `MemoryGraphClient.weaken_concept_relevance` (clamped to `0.0`). -/
def weaken_concept_relevance (qpow : ℚ → ℚ → ℚ) (cfg : PlasticityConfig)
    (st : GraphState) (memory_id concept_id : String) (amount : Option ℚ) : GraphState :=
  let amount :=
    match amount with
    | none => cfg.effectiveAmount qpow PlasticityContext.weaken (1/2)
    | some a => a
  if amount ≤ 0 then st
  else
    let rel' := fun k =>
      if k = (memory_id, concept_id) then
        (st.conceptRel k).map (fun r => if r - amount < 0 then 0 else r - amount)
      else st.conceptRel k
    { st with conceptRel := rel' }

/-- `MemoryGraphClient.prune_dead_connections`: delete every Memory→Memory
edge whose strength is at or below the (overridable) prune threshold. -/
def prune_dead_connections (cfg : PlasticityConfig) (st : GraphState)
    (min_strength : Option ℚ) : GraphState :=
  let ms := min_strength.getD cfg.prune_threshold
  let edges' := fun k =>
    match st.edges k with
    | some e => if e.strength ≤ ms then none else some e
    | none => none
  { st with edges := edges' }

/-- `MemoryGraphClient.decay_weak_connections`.  `threshold`/`decay_amount`
default from the config (`is None` checks, so an explicit `0` is kept); the
clamped subtraction matches the Cypher `CASE`; `auto_prune` chains into
`prune_dead_connections`. -/
def decay_weak_connections (qpow : ℚ → ℚ → ℚ) (cfg : PlasticityConfig) (st : GraphState)
    (threshold decay_amount : Option ℚ) : GraphState :=
  let threshold := threshold.getD cfg.decay_threshold
  let d := decay_amount.getD (cfg.effectiveAmount qpow PlasticityContext.decay (1/2))
  if d ≤ 0 then st
  else
    let decayed := fun (e : Edge) =>
      { e with strength :=
          if e.strength - d < cfg.min_strength then cfg.min_strength else e.strength - d }
    let st' :=
      if cfg.decay_all then
        let edges' := fun k => (st.edges k).map decayed
        { st with edges := edges' }
      else
        let edges' := fun k =>
          (st.edges k).map (fun e => if e.strength < threshold then decayed e else e)
        { st with edges := edges' }
    if cfg.auto_prune then prune_dead_connections cfg st' none else st'

/-- `MemoryGraphClient.create_preference`: look up by (category, preference);
if a row exists, bump `observations` and store the running-average strength on
the row with the found id and return that id; otherwise insert the new row. -/
def create_preference (st : GraphState) (p : PrefRow) : String × GraphState :=
  match st.prefs.find? (fun r => r.category == p.category && r.preference == p.preference) with
  | some existing =>
    let new_observations := existing.observations + 1
    let new_strength :=
      (existing.strength * (existing.observations : ℚ) + p.strength) / (new_observations : ℚ)
    let prefs' := st.prefs.map (fun r =>
      if r.id = existing.id then
        { r with observations := new_observations, strength := new_strength }
      else r)
    (existing.id, { st with prefs := prefs' })
  | none => (p.id, { st with prefs := st.prefs ++ [p] })

/-- `effective_amount` as invoked from `apply_hebbian_learning` with the raw
Python value `strength_fwd or strength_rev`, which can be `None`: with the
LINEAR curve `_apply_curve` returns the base without touching the strength,
while the other curves evaluate `None ** exponent` and raise `TypeError`
(modelled as `none`). -/
def effectiveAmountPy (qpow : ℚ → ℚ → ℚ) (cfg : PlasticityConfig)
    (context : PlasticityContext) : Option ℚ → Option ℚ
  | some s => some (cfg.effectiveAmount qpow context s)
  | none =>
    if cfg.curve = Curve.LINEAR then some (context.baseAmount cfg * cfg.learning_rate)
    else none

/-- The loop body of `apply_hebbian_learning` for one pair `(id1, id2)`. -/
def hebbianPair (qpow : ℚ → ℚ → ℚ) (cfg : PlasticityConfig) (amount : Option ℚ)
    (respect_compartments : Bool) (st : GraphState) (id1 id2 : String) :
    Except String GraphState :=
  let strength_fwd := get_memory_link_strength st id1 id2
  let strength_rev := get_memory_link_strength st id2 id1
  let has_connection := strength_fwd.isSome || strength_rev.isSome
  if !has_connection && cfg.hebbian_creates_connections then
    if respect_compartments && !(can_form_connection st id1 id2) then Except.ok st
    else
      let initial := cfg.getInitialStrength false none none
      match link_memories st id1 id2 initial "hebbian" none false with
      | Except.error e => Except.error e
      | Except.ok r1 =>
        match link_memories r1.2 id2 id1 initial "hebbian" none false with
        | Except.error e => Except.error e
        | Except.ok r2 => Except.ok r2.2
  else if has_connection then
    match (if pyTruthy amount then amount
           else effectiveAmountPy qpow cfg PlasticityContext.hebbian
                  (pyOrOpt strength_fwd strength_rev)) with
    | none => Except.error "TypeError: unsupported operand"
    | some effective =>
      let st1 := if strength_fwd.isSome then
          strengthen_memory_link qpow cfg st id1 id2 (some effective) else st
      let st2 := if strength_rev.isSome then
          strengthen_memory_link qpow cfg st1 id2 id1 (some effective) else st1
      Except.ok st2
  else Except.ok st

/-- The ordered pairs visited by the nested loop
`for i, id1 in enumerate(memory_ids): for id2 in memory_ids[i+1:]`. -/
def allPairs : List String → List (String × String)
  | [] => []
  | x :: xs => xs.map (fun y => (x, y)) ++ allPairs xs

/-- Sequential processing of a list of pairs, threading the graph state and
stopping at the first raised exception. -/
def hebbianGo (qpow : ℚ → ℚ → ℚ) (cfg : PlasticityConfig) (amount : Option ℚ)
    (respect_compartments : Bool) :
    List (String × String) → GraphState → Except String GraphState
  | [], st => Except.ok st
  | p :: ps, st =>
    match hebbianPair qpow cfg amount respect_compartments st p.1 p.2 with
    | Except.error e => Except.error e
    | Except.ok st' => hebbianGo qpow cfg amount respect_compartments ps st'

/-- `MemoryGraphClient.apply_hebbian_learning`. -/
def apply_hebbian_learning (qpow : ℚ → ℚ → ℚ) (cfg : PlasticityConfig) (st : GraphState)
    (memory_ids : List String) (amount : Option ℚ) (respect_compartments : Bool) :
    Except String GraphState :=
  hebbianGo qpow cfg amount respect_compartments (allPairs memory_ids) st

/-- Claim C7's description of `effective_amount`, written from the spec's
words (§4.3.2): `base = context_amount · learning_rate`; LINEAR returns
`base`; EXPONENTIAL uses exponent `1/steepness` with steepness clamped to
`[0.1, 0.9]` and factor clamped below by `0.1`; LOGARITHMIC uses
`s = steepness` directly.  To be compared with
`PlasticityConfig.effectiveAmount`, the translation of the source. -/
def specEffectiveAmount (qpow : ℚ → ℚ → ℚ) (cfg : PlasticityConfig)
    (context : PlasticityContext) (current_strength : ℚ) : ℚ :=
  let base := context.baseAmount cfg * cfg.learning_rate
  match cfg.curve with
  | Curve.LINEAR => base
  | Curve.EXPONENTIAL =>
    let steepness := max (1/10) (min (9/10) cfg.curve_steepness)
    let k := 1 / steepness
    match context with
    | .strengthen | .hebbian | .retrieval => base * max (1/10) (1 - qpow current_strength k)
    | .weaken | .decay => base * max (1/10) (qpow current_strength k)
  | Curve.LOGARITHMIC =>
    let s := cfg.curve_steepness
    match context with
    | .strengthen | .hebbian | .retrieval => base * ((1 - s) + current_strength * s)
    | .weaken | .decay => base * (s + (1 - current_strength) * (1 - s))

/-! Concrete sample data used by witnesses and counterexamples. -/

/-- A graph with no nodes, edges or rows. -/
def emptyState : GraphState where
  memExists := fun _ => false
  memPerm := fun _ => none
  memComps := fun _ => []
  edges := fun _ => none
  conceptRel := fun _ => none
  prefs := []

/-- A locked compartment that forbids external connections. -/
def lockedComp : Compartment :=
  { id := "c1", name := "Locked", permeability := Permeability.CLOSED,
    allowExternalConnections := false }

/-- A state in which memory "a" sits in the locked compartment. -/
def compState : GraphState :=
  { emptyState with
    memExists := fun x => x == "a" || x == "b"
    memComps := fun x => if x = "a" then [lockedComp] else [] }

/-- A state with memories "a" and "b", both with OPEN permeability. -/
def openState : GraphState :=
  { emptyState with
    memExists := fun x => x == "a" || x == "b"
    memPerm := fun x => if x = "a" ∨ x = "b" then some Permeability.OPEN else none }

/-- A state with one existing RELATES_TO edge "a" → "b". -/
def relinkState : GraphState :=
  { emptyState with
    memExists := fun x => x == "a" || x == "b"
    edges := fun k =>
      if k = ("a", "b") then some ⟨1/2, "hebbian", Permeability.OPEN⟩ else none }

/-! Claim theorems. -/

/-- Claim C10: for ids with no Memory row — both memory-level permeability
lookups return no row and both compartment sets are empty — `can_data_flow`
with no connection permeability returns `true`: missing permeability data is
permissive. -/
theorem C10_missing_rows_flow (st : GraphState) (a b : String)
    (hpa : st.memPerm a = none) (hpb : st.memPerm b = none)
    (hca : st.memComps a = []) (hcb : st.memComps b = []) :
    can_data_flow st a b none = true := by
  simp [can_data_flow, GraphState.getMemoryPermeability, GraphState.getMemoryCompartments,
    hpa, hpb, hca, hcb]

/-- Witness for C10 at the empty graph. -/
theorem C10_witness :
    emptyState.memPerm "a" = none ∧ emptyState.memComps "a" = [] ∧
    can_data_flow emptyState "a" "b" none = true :=
  ⟨rfl, rfl, C10_missing_rows_flow emptyState "a" "b" rfl rfl rfl rfl⟩

/-- Claim C1: when both memories have a stored permeability, `can_data_flow`
returns `true` iff every layer allows the flow: the source's memory-level
permeability allows outward, the destination's allows inward, every source
compartment allows outward, every destination compartment allows inward, and
a supplied connection permeability allows inward.  Since each layer is a pure
test, "evaluated in order with any failing layer yielding false" is exactly
this conjunction. -/
theorem C1_can_data_flow_iff (st : GraphState) (src dst : String)
    (conn : Option Permeability) (pf pt : Permeability)
    (hpf : st.memPerm src = some pf) (hpt : st.memPerm dst = some pt) :
    can_data_flow st src dst conn = true ↔
      (pf.allows_outward = true ∧ pt.allows_inward = true ∧
       (∀ c ∈ st.memComps src, c.permeability.allows_outward = true) ∧
       (∀ c ∈ st.memComps dst, c.permeability.allows_inward = true) ∧
       (∀ p, conn = some p → p.allows_inward = true)) := by
  cases conn <;>
    simp [can_data_flow, GraphState.getMemoryPermeability, GraphState.getMemoryCompartments,
      hpf, hpt, List.any_eq_true]

/-- Witness for C1: in `openState` data may flow from "a" to "b". -/
theorem C1_witness : can_data_flow openState "a" "b" none = true := by
  refine (C1_can_data_flow_iff openState "a" "b" none Permeability.OPEN Permeability.OPEN
    (by simp [openState, emptyState]) (by simp [openState, emptyState])).2 ?_
  refine ⟨rfl, rfl, ?_, ?_, ?_⟩ <;> simp [openState, emptyState]

/-- Claim C2: `can_form_connection` returns `true` when both compartment sets
are empty; `true` when the two id-sets are equal and non-empty (co-located
exception); and otherwise returns `false` exactly when some compartment among
those of either memory has `allowExternalConnections = false`. -/
theorem C2_can_form_connection_cases (st : GraphState) (a b : String) :
    (st.memComps a = [] ∧ st.memComps b = [] → can_form_connection st a b = true) ∧
    ((((st.memComps a).map Compartment.id).toFinset =
        ((st.memComps b).map Compartment.id).toFinset ∧
      ((st.memComps a).map Compartment.id).toFinset ≠ ∅ →
      can_form_connection st a b = true)) ∧
    (¬(st.memComps a = [] ∧ st.memComps b = []) →
     ¬(((st.memComps a).map Compartment.id).toFinset =
         ((st.memComps b).map Compartment.id).toFinset ∧
       ((st.memComps a).map Compartment.id).toFinset ≠ ∅) →
     (can_form_connection st a b = false ↔
       ∃ c ∈ st.memComps a ++ st.memComps b, c.allowExternalConnections = false)) := by
  unfold can_form_connection GraphState.getMemoryCompartments
  refine ⟨fun h => by simp [h.1, h.2], fun h => ?_, fun h1 h2 => ?_⟩
  · by_cases hempty : st.memComps a = [] ∧ st.memComps b = []
    · rw [if_pos hempty]
    · rw [if_neg hempty, if_pos h]
  rw [if_neg h1, if_neg h2]
  constructor
  · intro hfalse
    by_cases ha : (st.memComps a).any (fun c => !c.allowExternalConnections)
    · rcases List.any_eq_true.1 ha with ⟨c, hc, hcblock⟩
      exact ⟨c, List.mem_append_left _ hc, by simpa using hcblock⟩
    · rw [if_neg (by simpa using ha)] at hfalse
      by_cases hb : (st.memComps b).any (fun c => !c.allowExternalConnections)
      · rcases List.any_eq_true.1 hb with ⟨c, hc, hcblock⟩
        exact ⟨c, List.mem_append_right _ hc, by simpa using hcblock⟩
      · rw [if_neg (by simpa using hb)] at hfalse
        exact absurd hfalse (by simp)
  · rintro ⟨c, hc, hcblock⟩
    rcases List.mem_append.1 hc with hca | hcb
    · rw [if_pos (List.any_eq_true.2 ⟨c, hca, by simp [hcblock]⟩)]
    · by_cases ha : (st.memComps a).any (fun c => !c.allowExternalConnections)
      · rw [if_pos ha]
      · rw [if_neg (by simpa using ha),
          if_pos (List.any_eq_true.2 ⟨c, hcb, by simp [hcblock]⟩)]

/-- Witness for C2: memory "a" in the locked compartment, memory "b" global:
formation is blocked. -/
theorem C2_witness : can_form_connection compState "a" "b" = false := by
  refine ((C2_can_form_connection_cases compState "a" "b").2.2 (by decide) (by decide)).2 ?_
  exact ⟨lockedComp, by decide, rfl⟩

/-- Claim C9: re-linking an already linked pair returns `true`, creates no
second edge, and leaves the whole graph — in particular the edge's stored
strength, relType and permeability — unchanged, because `MERGE ... ON CREATE
SET` sets properties only on creation. -/
theorem C9_relink_is_noop (st : GraphState) (a b : String) (e : Edge) (v : ℚ)
    (rt : String) (pm : Option Permeability)
    (he : st.edges (a, b) = some e) (h0 : 0 ≤ v) (h1 : v ≤ 1) :
    link_memories st a b v rt pm false = Except.ok (true, st) := by
  have hv : ¬(v < 0 ∨ 1 < v) := by
    push_neg
    exact ⟨h0, h1⟩
  unfold link_memories
  rw [if_neg hv]
  simp only [Bool.false_and, Bool.false_eq_true, if_false]
  split
  · rw [he]
  · rfl

/-- Witness for C9: re-link the existing edge of `relinkState`. -/
theorem C9_witness :
    link_memories relinkState "a" "b" (9/10) "other" (some Permeability.CLOSED) false =
      Except.ok (true, relinkState) :=
  C9_relink_is_noop relinkState "a" "b" ⟨1/2, "hebbian", Permeability.OPEN⟩ (9/10) "other"
    (some Permeability.CLOSED) rfl (by norm_num) (by norm_num)

/-- A placeholder power function for concrete inputs whose curve is LINEAR,
where `qpow` is never consulted. -/
def qpowTrivial : ℚ → ℚ → ℚ := fun _ _ => 0

/-- The stored row after the first `create_preference` of the claim's
concrete scenario (strength 0.6). -/
def prefRow1 : PrefRow := ⟨"p1", "style", "concise", 3/5, 1⟩

/-- The state holding exactly `prefRow1`. -/
def prefState1 : GraphState := (create_preference emptyState prefRow1).2

/-- Unfolding of `create_preference` when a matching row is found. -/
theorem create_preference_found (st : GraphState) (p r0 : PrefRow)
    (hfind : st.prefs.find?
      (fun q => q.category == p.category && q.preference == p.preference) = some r0) :
    create_preference st p = (r0.id, { st with prefs := st.prefs.map (fun r =>
      if r.id = r0.id then
        { r with observations := r0.observations + 1,
                 strength := (r0.strength * (r0.observations : ℚ) + p.strength) /
                   ((r0.observations + 1 : ℕ) : ℚ) }
      else r) }) := by
  unfold create_preference
  rw [hfind]

/-- Claim C4: a second `create_preference` for an existing (category,
preference) pair does not insert a row, returns the existing id, and updates
the stored row to `observations + 1` and the running-average strength; in
particular 0.6 then 1.0 yields observations 2 and strength 0.8. -/
theorem C4_preference_running_average :
    (∀ (st : GraphState) (p r0 : PrefRow),
      st.prefs.find?
          (fun q => q.category == p.category && q.preference == p.preference) = some r0 →
      (∀ q ∈ st.prefs, q.id = r0.id → q = r0) →
      (create_preference st p).1 = r0.id ∧
      (create_preference st p).2.prefs.length = st.prefs.length ∧
      ({ r0 with observations := r0.observations + 1,
                 strength := (r0.strength * (r0.observations : ℚ) + p.strength) /
                   ((r0.observations : ℚ) + 1) } : PrefRow) ∈ (create_preference st p).2.prefs ∧
      (∀ q ∈ st.prefs, q ≠ r0 → q ∈ (create_preference st p).2.prefs)) ∧
    (create_preference prefState1 ⟨"p2", "style", "concise", 1, 1⟩).2.prefs =
      [⟨"p1", "style", "concise", 4/5, 2⟩] := by
  constructor
  · intro st p r0 hfind hid
    have hr0 : r0 ∈ st.prefs := List.mem_of_find?_eq_some hfind
    rw [create_preference_found st p r0 hfind]
    refine ⟨rfl, by simp, ?_, ?_⟩
    · have hmem := List.mem_map_of_mem (fun r =>
        if r.id = r0.id then
          { r with observations := r0.observations + 1,
                   strength := (r0.strength * (r0.observations : ℚ) + p.strength) /
                     ((r0.observations + 1 : ℕ) : ℚ) }
        else r) hr0
      simp only [if_pos rfl] at hmem
      convert hmem using 2
      push_cast
      ring
    · intro q hq hne
      have hqid : ¬q.id = r0.id := fun hqid => hne (hid q hq hqid)
      have hmem := List.mem_map_of_mem (fun r =>
        if r.id = r0.id then
          { r with observations := r0.observations + 1,
                   strength := (r0.strength * (r0.observations : ℚ) + p.strength) /
                     ((r0.observations + 1 : ℕ) : ℚ) }
        else r) hq
      simp only [if_neg hqid] at hmem
      exact hmem
  · have hp1 : prefState1.prefs = [prefRow1] := rfl
    rw [create_preference_found prefState1 ⟨"p2", "style", "concise", 1, 1⟩ prefRow1 rfl]
    simp only [hp1, List.map_cons, List.map_nil]
    norm_num [prefRow1, PrefRow.mk.injEq]

/-- Witness for C4, at the single-row state of the concrete scenario. -/
theorem C4_witness :
    (create_preference prefState1 ⟨"p2", "style", "concise", 1, 1⟩).1 = "p1" :=
  ((C4_preference_running_average.1 prefState1 ⟨"p2", "style", "concise", 1, 1⟩ prefRow1
    rfl (by
      intro q hq _
      have e : prefState1.prefs = [prefRow1] := rfl
      rw [e] at hq
      simpa using hq)).1)

/-- Claim C7: for the five contexts and a current strength in [0,1],
`effective_amount` computes exactly the spec's formula (base
`context_amount · learning_rate`, then the LINEAR / EXPONENTIAL /
LOGARITHMIC curve adjustment).  Stated for steepness within the spec's
declared domain [0.1, 0.9] (§4.3.1), where the EXPONENTIAL clamp is the
identity and both readings of the LOGARITHMIC `s = steepness` agree. -/
theorem C7_effective_amount_matches_spec (qpow : ℚ → ℚ → ℚ) (cfg : PlasticityConfig)
    (context : PlasticityContext) (cs : ℚ)
    (hs1 : 1/10 ≤ cfg.curve_steepness) (hs2 : cfg.curve_steepness ≤ 9/10)
    (_hc0 : 0 ≤ cs) (_hc1 : cs ≤ 1) :
    cfg.effectiveAmount qpow context cs = specEffectiveAmount qpow cfg context cs := by
  have hclamp : max (1/10 : ℚ) (min (9/10) cfg.curve_steepness) = cfg.curve_steepness := by
    rw [min_eq_right hs2]
    exact max_eq_right hs1
  have hclamp' : (10 : ℚ)⁻¹ ⊔ 9/10 ⊓ cfg.curve_steepness = cfg.curve_steepness := by
    rw [min_eq_right hs2]
    exact max_eq_right (by simpa [one_div] using hs1)
  unfold PlasticityConfig.effectiveAmount PlasticityConfig.applyCurve specEffectiveAmount
  cases hcv : cfg.curve <;> cases context <;>
    simp [hcv, hclamp, hclamp', PlasticityContext.forIncrease]

/-- Witness for C7 at the default configuration. -/
theorem C7_witness :
    ({} : PlasticityConfig).effectiveAmount qpowTrivial PlasticityContext.strengthen (1/2) =
      specEffectiveAmount qpowTrivial {} PlasticityContext.strengthen (1/2) :=
  C7_effective_amount_matches_spec qpowTrivial {} PlasticityContext.strengthen (1/2)
    (by norm_num) (by norm_num) (by norm_num) (by norm_num)

/-- The pair of maintenance operations named by claim C8:
`decay_weak_connections` (with its configured auto-prune behaviour) followed
by an explicit `prune_dead_connections`, both at default arguments. -/
def decayThenPrune (qpow : ℚ → ℚ → ℚ) (cfg : PlasticityConfig) (st : GraphState) :
    GraphState :=
  prune_dead_connections cfg (decay_weak_connections qpow cfg st none none) none

/-- A state with a single weak edge (strength 0.4) between "a" and "b". -/
def decayState : GraphState :=
  { emptyState with
    memExists := fun x => x == "a" || x == "b"
    edges := fun k => if k = ("a", "b") then some ⟨2/5, "", Permeability.OPEN⟩ else none }

/-- `prune_dead_connections` is idempotent for a fixed override. -/
theorem prune_dead_connections_idem (cfg : PlasticityConfig) (st : GraphState)
    (ms : Option ℚ) :
    prune_dead_connections cfg (prune_dead_connections cfg st ms) ms =
      prune_dead_connections cfg st ms := by
  unfold prune_dead_connections
  refine GraphState.ext rfl rfl rfl ?_ rfl rfl
  funext k
  dsimp only
  rcases hst : st.edges k with _ | e
  · simp [hst]
  · simp only [hst]
    split_ifs with h1
    · rfl
    · simp [h1]

/-- Counterexample to claim C8: with the default configuration and a single
edge of strength 0.4, the decay threshold is 0.5 and the decay amount 0.05,
so the first pair leaves strength 0.35 and the second pair decays it again to
0.3 — the pair is not idempotent. -/
theorem C8_counterexample :
    (decayThenPrune qpowTrivial {} (decayThenPrune qpowTrivial {} decayState)).edges
        ("a", "b") ≠
      (decayThenPrune qpowTrivial {} decayState).edges ("a", "b") := by
  have hd : ({} : PlasticityConfig).effectiveAmount qpowTrivial
      PlasticityContext.decay (1/2) = 1/20 := by
    norm_num [PlasticityConfig.effectiveAmount, PlasticityConfig.applyCurve,
      PlasticityContext.baseAmount, PlasticityContext.forIncrease]
  have hlook : decayState.edges ("a", "b") = some ⟨2/5, "", Permeability.OPEN⟩ := by
    simp [decayState, emptyState]
  have h1 : (decayThenPrune qpowTrivial {} decayState).edges ("a", "b") =
      some ⟨7/20, "", Permeability.OPEN⟩ := by
    norm_num [decayThenPrune, decay_weak_connections, prune_dead_connections, hd,
      Option.getD, hlook]
  have h2 : (decayThenPrune qpowTrivial {} (decayThenPrune qpowTrivial {} decayState)).edges
      ("a", "b") = some ⟨3/10, "", Permeability.OPEN⟩ := by
    norm_num [decayThenPrune, decay_weak_connections, prune_dead_connections, hd,
      Option.getD, hlook]
  rw [h1, h2]
  simp only [ne_eq, Option.some.injEq, Edge.mk.injEq]
  norm_num

/-- Claim C8 (amended): the pair decay-then-prune is not idempotent (see the
counterexample: still-sub-threshold edges decay again on a second pass), but
its trailing prune is — running `prune_dead_connections` once more after the
pair, with no other writes, changes neither the edge set nor any strength. -/
theorem C8_amended_trailing_prune_noop (qpow : ℚ → ℚ → ℚ) (cfg : PlasticityConfig)
    (st : GraphState) :
    prune_dead_connections cfg (decayThenPrune qpow cfg st) none =
      decayThenPrune qpow cfg st :=
  prune_dead_connections_idem cfg (decay_weak_connections qpow cfg st none none) none

/-! Bound predicates and preservation lemmas for claim C3. -/

/-- Every stored `RELATES_TO` strength lies in `[lo, hi]`. -/
def EdgesWithin (st : GraphState) (lo hi : ℚ) : Prop :=
  ∀ k e, st.edges k = some e → lo ≤ e.strength ∧ e.strength ≤ hi

/-- Every stored `HAS_CONCEPT` relevance lies in `[0, 1]`. -/
def RelevanceWithin (st : GraphState) : Prop :=
  ∀ k r, st.conceptRel k = some r → 0 ≤ r ∧ r ≤ 1

/-- Every stored `Preference` strength lies in `[-1, 1]`. -/
def PrefsWithin (st : GraphState) : Prop :=
  ∀ r ∈ st.prefs, -1 ≤ r.strength ∧ r.strength ≤ 1

/-- A successful `link_memories` call had an argument strength in `[0, 1]`. -/
theorem link_memories_ok_valid (st : GraphState) (a b : String) (v : ℚ) (rt : String)
    (pm : Option Permeability) (ck : Bool) (r : Bool) (st' : GraphState)
    (hok : link_memories st a b v rt pm ck = Except.ok (r, st')) : 0 ≤ v ∧ v ≤ 1 := by
  by_cases h1 : v < 0 ∨ 1 < v
  · unfold link_memories at hok
    rw [if_pos h1] at hok
    exact absurd hok (by simp)
  · push_neg at h1
    exact h1

/-- After a successful `link_memories`, every edge is either an old edge or
the freshly written one. -/
theorem link_memories_ok_edges (st : GraphState) (a b : String) (v : ℚ) (rt : String)
    (pm : Option Permeability) (ck : Bool) (r : Bool) (st' : GraphState)
    (hok : link_memories st a b v rt pm ck = Except.ok (r, st')) :
    ∀ k e, st'.edges k = some e → st.edges k = some e ∨ e.strength = v := by
  intro k e he
  have hextract : ∀ (x : Bool) (y : GraphState),
      (Except.ok (x, y) : Except String (Bool × GraphState)) = Except.ok (r, st') →
      st' = y := by
    intro x y h
    have h' := Except.ok.inj h
    exact (congrArg Prod.snd h').symm
  unfold link_memories at hok
  by_cases h1 : v < 0 ∨ 1 < v
  · rw [if_pos h1] at hok
    exact absurd hok (by simp)
  · rw [if_neg h1] at hok
    split_ifs at hok with h2 h3
    · rw [hextract _ _ hok] at he
      exact Or.inl he
    · dsimp only at hok
      rcases hst : st.edges (a, b) with _ | e0
      · simp only [hst] at hok
        rw [hextract _ _ hok] at he
        dsimp only at he
        by_cases hk : k = (a, b)
        · rw [if_pos hk] at he
          rw [Option.some_inj] at he
          right
          rw [← he]
        · rw [if_neg hk] at he
          exact Or.inl he
      · simp only [hst] at hok
        rw [hextract _ _ hok] at he
        exact Or.inl he
    · dsimp only at hok
      rw [hextract _ _ hok] at he
      exact Or.inl he

/-- `link_memories` keeps all edge strengths within `[lo, hi]` when the
written strength is. -/
theorem link_memories_within (st : GraphState) (a b : String) (v : ℚ) (rt : String)
    (pm : Option Permeability) (ck : Bool) (r : Bool) (st' : GraphState) (lo hi : ℚ)
    (hok : link_memories st a b v rt pm ck = Except.ok (r, st'))
    (hW : EdgesWithin st lo hi) (hv0 : lo ≤ v) (hv1 : v ≤ hi) : EdgesWithin st' lo hi := by
  intro k e he
  rcases link_memories_ok_edges st a b v rt pm ck r st' hok k e he with hold | hnew
  · exact hW k e hold
  · rw [hnew]
    exact ⟨hv0, hv1⟩

/-- `strengthen_memory_link` keeps strengths within the configured bounds. -/
theorem strengthen_memory_link_within (qpow : ℚ → ℚ → ℚ) (cfg : PlasticityConfig)
    (st : GraphState) (a b : String) (amt : Option ℚ)
    (hW : EdgesWithin st cfg.min_strength cfg.max_strength) :
    EdgesWithin (strengthen_memory_link qpow cfg st a b amt)
      cfg.min_strength cfg.max_strength := by
  intro k e he
  unfold strengthen_memory_link at he
  dsimp only at he
  split_ifs at he with heff
  · exact hW k e he
  · push_neg at heff
    dsimp only at he
    by_cases hk : k = (a, b)
    · rw [if_pos hk] at he
      rcases hst : st.edges k with _ | e0
      · rw [hst] at he
        exact absurd he (by simp)
      · rw [hst] at he
        rcases hW k e0 hst with ⟨hlo, hhi⟩
        simp only [Option.map_some'] at he
        rw [Option.some_inj] at he
        rw [← he]
        dsimp only
        split_ifs with hclamp
        · exact ⟨le_trans hlo hhi, le_refl _⟩
        · exact ⟨le_trans hlo (by linarith), not_lt.1 hclamp⟩
    · rw [if_neg hk] at he
      exact hW k e he

/-- `weaken_memory_link` keeps strengths within the configured bounds. -/
theorem weaken_memory_link_within (qpow : ℚ → ℚ → ℚ) (cfg : PlasticityConfig)
    (st : GraphState) (a b : String) (amt : Option ℚ)
    (hW : EdgesWithin st cfg.min_strength cfg.max_strength) :
    EdgesWithin (weaken_memory_link qpow cfg st a b amt)
      cfg.min_strength cfg.max_strength := by
  intro k e he
  unfold weaken_memory_link at he
  dsimp only at he
  split_ifs at he with heff
  · exact hW k e he
  · push_neg at heff
    dsimp only at he
    by_cases hk : k = (a, b)
    · rw [if_pos hk] at he
      rcases hst : st.edges k with _ | e0
      · rw [hst] at he
        exact absurd he (by simp)
      · rw [hst] at he
        rcases hW k e0 hst with ⟨hlo, hhi⟩
        simp only [Option.map_some'] at he
        rw [Option.some_inj] at he
        rw [← he]
        dsimp only
        split_ifs with hclamp
        · exact ⟨le_refl _, le_trans hlo hhi⟩
        · exact ⟨not_lt.1 hclamp, le_trans (by linarith) hhi⟩
    · rw [if_neg hk] at he
      exact hW k e he

/-- `prune_dead_connections` keeps any strength interval (it only deletes). -/
theorem prune_dead_connections_within (cfg : PlasticityConfig) (st : GraphState)
    (ms : Option ℚ) (lo hi : ℚ) (hW : EdgesWithin st lo hi) :
    EdgesWithin (prune_dead_connections cfg st ms) lo hi := by
  intro k e he
  unfold prune_dead_connections at he
  dsimp only at he
  rcases hst : st.edges k with _ | e0
  · simp only [hst] at he
    exact absurd he (by simp)
  · simp only [hst] at he
    split_ifs at he with h1
    have he' : e0 = e := by simpa using he
    rw [← he']
    exact hW k e0 hst

/-- `decay_weak_connections` keeps strengths within the configured bounds. -/
theorem decay_weak_connections_within (qpow : ℚ → ℚ → ℚ) (cfg : PlasticityConfig)
    (st : GraphState) (thr da : Option ℚ)
    (hW : EdgesWithin st cfg.min_strength cfg.max_strength) :
    EdgesWithin (decay_weak_connections qpow cfg st thr da)
      cfg.min_strength cfg.max_strength := by
  have hmap : ∀ f : Edge → Edge,
      (∀ e0 : Edge, cfg.min_strength ≤ e0.strength → e0.strength ≤ cfg.max_strength →
        cfg.min_strength ≤ (f e0).strength ∧ (f e0).strength ≤ cfg.max_strength) →
      ∀ k e, (st.edges k).map f = some e →
        cfg.min_strength ≤ e.strength ∧ e.strength ≤ cfg.max_strength := by
    intro f hf k e he
    rcases hst : st.edges k with _ | e0
    · rw [hst] at he
      exact absurd he (by simp)
    · rw [hst] at he
      have hfe : f e0 = e := by simpa using he
      rcases hW k e0 hst with ⟨h1, h2⟩
      exact hfe ▸ hf e0 h1 h2
  unfold decay_weak_connections
  dsimp only
  split_ifs with hd hp hall hall2
  · exact hW
  all_goals push_neg at hd
  all_goals
    first
      | refine prune_dead_connections_within cfg _ none _ _ ?_
      | skip
  all_goals
    intro k e he
  all_goals
    dsimp only at he
  all_goals
    refine hmap _ ?_ k e he
  all_goals
    intro e0 h1 h2'
  all_goals
    dsimp only
  · split_ifs with hc
    · exact ⟨le_refl _, le_trans h1 h2'⟩
    · exact ⟨not_lt.1 hc, by linarith⟩
  · split_ifs with hthr hc
    · exact ⟨le_refl _, le_trans h1 h2'⟩
    · exact ⟨not_lt.1 hc, by linarith⟩
    · exact ⟨h1, h2'⟩
  · split_ifs with hc
    · exact ⟨le_refl _, le_trans h1 h2'⟩
    · exact ⟨not_lt.1 hc, by linarith⟩
  · split_ifs with hthr hc
    · exact ⟨le_refl _, le_trans h1 h2'⟩
    · exact ⟨not_lt.1 hc, by linarith⟩
    · exact ⟨h1, h2'⟩

/-- `create_preference` keeps every stored preference strength in `[-1, 1]`
when the incoming strength is (the dataclass validates it on construction). -/
theorem create_preference_within (st : GraphState) (p : PrefRow)
    (hp0 : -1 ≤ p.strength) (hp1 : p.strength ≤ 1) (hW : PrefsWithin st) :
    PrefsWithin (create_preference st p).2 := by
  intro r hr
  unfold create_preference at hr
  rcases hfind : st.prefs.find?
      (fun q => q.category == p.category && q.preference == p.preference) with _ | r0 <;>
    simp only [hfind] at hr
  · rcases List.mem_append.1 hr with h | h
    · exact hW r h
    · have : r = p := by simpa using h
      rw [this]
      exact ⟨hp0, hp1⟩
  · rcases List.mem_map.1 hr with ⟨q, hq, hfq⟩
    have hr0 : r0 ∈ st.prefs := List.mem_of_find?_eq_some hfind
    rcases hW r0 hr0 with ⟨h1, h2⟩
    by_cases hqid : q.id = r0.id
    · rw [if_pos hqid] at hfq
      rw [← hfq]
      dsimp only
      have hn : (0 : ℚ) ≤ (r0.observations : ℚ) := Nat.cast_nonneg _
      have hpos : (0 : ℚ) < ((r0.observations + 1 : ℕ) : ℚ) := by
        push_cast
        linarith
      have hup : r0.strength * (r0.observations : ℚ) ≤ (r0.observations : ℚ) := by
        nlinarith
      have hdown : -(r0.observations : ℚ) ≤ r0.strength * (r0.observations : ℚ) := by
        nlinarith
      constructor
      · rw [le_div_iff₀ hpos]
        push_cast
        linarith
      · rw [div_le_one hpos]
        push_cast
        linarith
    · rw [if_neg hqid] at hfq
      rw [← hfq]
      exact hW q hq

/-- `strengthen_concept_relevance` keeps relevances in `[0, 1]`. -/
theorem strengthen_concept_relevance_within (qpow : ℚ → ℚ → ℚ) (cfg : PlasticityConfig)
    (st : GraphState) (m c : String) (amt : Option ℚ) (hW : RelevanceWithin st) :
    RelevanceWithin (strengthen_concept_relevance qpow cfg st m c amt) := by
  intro k r hr
  unfold strengthen_concept_relevance at hr
  dsimp only at hr
  split_ifs at hr with hamt
  · exact hW k r hr
  · push_neg at hamt
    dsimp only at hr
    by_cases hk : k = (m, c)
    · rw [if_pos hk] at hr
      rcases hst : st.conceptRel k with _ | r0
      · rw [hst] at hr
        exact absurd hr (by simp)
      · rw [hst] at hr
        simp only [Option.map_some'] at hr
        rw [Option.some_inj] at hr
        rcases hW k r0 hst with ⟨h1, h2⟩
        rw [← hr]
        split_ifs with hc
        · exact ⟨zero_le_one, le_refl 1⟩
        · exact ⟨by linarith, not_lt.1 hc⟩
    · rw [if_neg hk] at hr
      exact hW k r hr

/-- `weaken_concept_relevance` keeps relevances in `[0, 1]`. -/
theorem weaken_concept_relevance_within (qpow : ℚ → ℚ → ℚ) (cfg : PlasticityConfig)
    (st : GraphState) (m c : String) (amt : Option ℚ) (hW : RelevanceWithin st) :
    RelevanceWithin (weaken_concept_relevance qpow cfg st m c amt) := by
  intro k r hr
  unfold weaken_concept_relevance at hr
  dsimp only at hr
  split_ifs at hr with hamt
  · exact hW k r hr
  · push_neg at hamt
    dsimp only at hr
    by_cases hk : k = (m, c)
    · rw [if_pos hk] at hr
      rcases hst : st.conceptRel k with _ | r0
      · rw [hst] at hr
        exact absurd hr (by simp)
      · rw [hst] at hr
        simp only [Option.map_some'] at hr
        rw [Option.some_inj] at hr
        rcases hW k r0 hst with ⟨h1, h2⟩
        rw [← hr]
        split_ifs with hc
        · exact ⟨le_refl 0, zero_le_one⟩
        · exact ⟨not_lt.1 hc, by linarith⟩
    · rw [if_neg hk] at hr
      exact hW k r hr

/-! Machinery for `apply_hebbian_learning` (claims C3, C5, C6). -/

/-- The non-edge parts of two states agree. -/
def SameFields (s t : GraphState) : Prop :=
  s.memExists = t.memExists ∧ s.memPerm = t.memPerm ∧ s.memComps = t.memComps ∧
  s.conceptRel = t.conceptRel ∧ s.prefs = t.prefs

theorem sameFields_refl (s : GraphState) : SameFields s s := ⟨rfl, rfl, rfl, rfl, rfl⟩

theorem sameFields_trans {s t u : GraphState} (h1 : SameFields s t) (h2 : SameFields t u) :
    SameFields s u := by
  obtain ⟨a1, a2, a3, a4, a5⟩ := h1
  obtain ⟨b1, b2, b3, b4, b5⟩ := h2
  exact ⟨a1.trans b1, a2.trans b2, a3.trans b3, a4.trans b4, a5.trans b5⟩

/-- `get_initial_strength` clamps into `[min_strength, max_strength]`. -/
theorem getInitialStrength_bounds (cfg : PlasticityConfig) (explicit : Bool)
    (c1 c2 : Option String) (hb : cfg.min_strength ≤ cfg.max_strength) :
    cfg.min_strength ≤ cfg.getInitialStrength explicit c1 c2 ∧
      cfg.getInitialStrength explicit c1 c2 ≤ cfg.max_strength := by
  unfold PlasticityConfig.getInitialStrength
  dsimp only
  exact ⟨le_min hb (le_max_left _ _), min_le_left _ _⟩

/-- The state produced by a creating `link_memories` write: the graph with
the single new edge added at `(a, b)`. -/
def linkWrite (st : GraphState) (a b : String) (v : ℚ) (rt : String)
    (pm : Option Permeability) : GraphState :=
  let edges' := fun k =>
    if k = (a, b) then some ⟨v, rt, pm.getD Permeability.OPEN⟩ else st.edges k
  { st with edges := edges' }

/-- The clamped-at-`max_strength` strengthened edge. -/
def clampIncrease (cfg : PlasticityConfig) (e : Edge) (d : ℚ) : Edge :=
  { e with strength :=
      if cfg.max_strength < e.strength + d then cfg.max_strength else e.strength + d }

/-- `link_memories` either leaves the state alone or writes exactly the new
edge at its key. -/
theorem link_memories_ok_cases (st : GraphState) (a b : String) (v : ℚ) (rt : String)
    (pm : Option Permeability) (ck : Bool) (r : Bool) (st' : GraphState)
    (hok : link_memories st a b v rt pm ck = Except.ok (r, st')) :
    st' = st ∨ st' = linkWrite st a b v rt pm := by
  have hextract : ∀ (x : Bool) (y : GraphState),
      (Except.ok (x, y) : Except String (Bool × GraphState)) = Except.ok (r, st') →
      st' = y := by
    intro x y h
    exact (congrArg Prod.snd (Except.ok.inj h)).symm
  unfold link_memories at hok
  by_cases h1 : v < 0 ∨ 1 < v
  · rw [if_pos h1] at hok
    exact absurd hok (by simp)
  · rw [if_neg h1] at hok
    split_ifs at hok with h2 h3
    · exact Or.inl (hextract _ _ hok)
    · dsimp only at hok
      rcases hst : st.edges (a, b) with _ | e0
      · simp only [hst] at hok
        exact Or.inr (hextract _ _ hok)
      · simp only [hst] at hok
        exact Or.inl (hextract _ _ hok)
    · dsimp only at hok
      exact Or.inl (hextract _ _ hok)

/-- A successful `link_memories` changes no non-edge field and no edge at
another key. -/
theorem link_memories_ok_fields (st : GraphState) (a b : String) (v : ℚ) (rt : String)
    (pm : Option Permeability) (ck : Bool) (r : Bool) (st' : GraphState)
    (hok : link_memories st a b v rt pm ck = Except.ok (r, st')) :
    SameFields st' st ∧ ∀ k, k ≠ (a, b) → st'.edges k = st.edges k := by
  rcases link_memories_ok_cases st a b v rt pm ck r st' hok with h | h <;> rw [h]
  · exact ⟨sameFields_refl st, fun _ _ => rfl⟩
  · refine ⟨⟨rfl, rfl, rfl, rfl, rfl⟩, fun k hk => ?_⟩
    dsimp only [linkWrite]
    rw [if_neg hk]

/-- When no edge exists, both Memory nodes exist, and the strength validates,
`link_memories` writes exactly the new edge. -/
theorem link_memories_creates (st : GraphState) (a b : String) (v : ℚ) (rt : String)
    (pm : Option Permeability) (h0 : 0 ≤ v) (h1 : v ≤ 1)
    (hne : st.edges (a, b) = none) (hea : st.memExists a = true)
    (heb : st.memExists b = true) :
    link_memories st a b v rt pm false = Except.ok (true, linkWrite st a b v rt pm) := by
  unfold link_memories linkWrite
  rw [if_neg (by push_neg; exact ⟨h0, h1⟩)]
  simp only [Bool.false_and, Bool.false_eq_true, if_false]
  rw [if_pos (by rw [hea, heb]; rfl)]
  simp only [hne]

/-- `strengthen_memory_link` changes no non-edge field and no edge at another
key. -/
theorem strengthen_memory_link_fields (qpow : ℚ → ℚ → ℚ) (cfg : PlasticityConfig)
    (st : GraphState) (a b : String) (amt : Option ℚ) :
    SameFields (strengthen_memory_link qpow cfg st a b amt) st ∧
    ∀ k, k ≠ (a, b) → (strengthen_memory_link qpow cfg st a b amt).edges k = st.edges k := by
  unfold strengthen_memory_link
  dsimp only
  split_ifs with heff
  · exact ⟨sameFields_refl st, fun _ _ => rfl⟩
  · refine ⟨⟨rfl, rfl, rfl, rfl, rfl⟩, fun k hk => ?_⟩
    dsimp only
    rw [if_neg hk]

/-- The strengthened value at the edge's own key. -/
theorem strengthen_memory_link_lookup (qpow : ℚ → ℚ → ℚ) (cfg : PlasticityConfig)
    (st : GraphState) (a b : String) (x : ℚ) (e : Edge)
    (he : st.edges (a, b) = some e) :
    (strengthen_memory_link qpow cfg st a b (some x)).edges (a, b) =
      some (if x * cfg.learning_rate ≤ 0 then e
            else clampIncrease cfg e (x * cfg.learning_rate)) := by
  unfold strengthen_memory_link
  dsimp only
  split_ifs with heff
  · exact he
  · dsimp only
    rw [if_pos rfl, he]
    simp only [Option.map_some']
    rfl

/-- `can_form_connection` depends only on the compartment map. -/
theorem can_form_connection_congr (st st' : GraphState) (a b : String)
    (h : st'.memComps = st.memComps) :
    can_form_connection st' a b = can_form_connection st a b := by
  unfold can_form_connection GraphState.getMemoryCompartments
  rw [h]

/-- Elimination principle for a successful `hebbianPair`: either nothing
happened, or the two creating links ran, or the strengthen branch ran with
some effective amount. -/
theorem hebbianPair_ok_elim (qpow : ℚ → ℚ → ℚ) (cfg : PlasticityConfig) (amt : Option ℚ)
    (resp : Bool) (st : GraphState) (a b : String) (st' : GraphState)
    (hok : hebbianPair qpow cfg amt resp st a b = Except.ok st') :
    st' = st ∨
    (∃ r1 r2 : Bool × GraphState,
      link_memories st a b (cfg.getInitialStrength false none none) "hebbian" none false =
        Except.ok r1 ∧
      link_memories r1.2 b a (cfg.getInitialStrength false none none) "hebbian" none false =
        Except.ok r2 ∧
      st' = r2.2) ∨
    (∃ eff : ℚ,
      st' = (if (get_memory_link_strength st b a).isSome then
               strengthen_memory_link qpow cfg
                 (if (get_memory_link_strength st a b).isSome then
                    strengthen_memory_link qpow cfg st a b (some eff) else st)
                 b a (some eff)
             else
               (if (get_memory_link_strength st a b).isSome then
                  strengthen_memory_link qpow cfg st a b (some eff) else st))) := by
  unfold hebbianPair at hok
  dsimp only at hok
  by_cases h1 : (!((get_memory_link_strength st a b).isSome ||
      (get_memory_link_strength st b a).isSome) && cfg.hebbian_creates_connections) = true
  · rw [if_pos h1] at hok
    by_cases h2 : (resp && !can_form_connection st a b) = true
    · rw [if_pos h2] at hok
      exact Or.inl (Except.ok.inj hok).symm
    · rw [if_neg h2] at hok
      rcases hl1 : link_memories st a b (cfg.getInitialStrength false none none)
          "hebbian" none false with e1 | r1
      · simp only [hl1] at hok
        exact absurd hok (by simp)
      · simp only [hl1] at hok
        rcases hl2 : link_memories r1.2 b a (cfg.getInitialStrength false none none)
            "hebbian" none false with e2 | r2
        · simp only [hl2] at hok
          exact absurd hok (by simp)
        · simp only [hl2] at hok
          exact Or.inr (Or.inl ⟨r1, r2, rfl, hl2, (Except.ok.inj hok).symm⟩)
  · rw [if_neg h1] at hok
    by_cases h3 : ((get_memory_link_strength st a b).isSome ||
        (get_memory_link_strength st b a).isSome) = true
    · rw [if_pos h3] at hok
      rcases heff : (if pyTruthy amt then amt
          else effectiveAmountPy qpow cfg PlasticityContext.hebbian
            (pyOrOpt (get_memory_link_strength st a b)
              (get_memory_link_strength st b a))) with _ | eff
      · simp only [heff] at hok
        exact absurd hok (by simp)
      · simp only [heff] at hok
        exact Or.inr (Or.inr ⟨eff, (Except.ok.inj hok).symm⟩)
    · rw [if_neg h3] at hok
      exact Or.inl (Except.ok.inj hok).symm

/-- A successful `hebbianPair` changes no non-edge field. -/
theorem hebbianPair_sameFields (qpow : ℚ → ℚ → ℚ) (cfg : PlasticityConfig)
    (amt : Option ℚ) (resp : Bool) (st : GraphState) (a b : String) (st' : GraphState)
    (hok : hebbianPair qpow cfg amt resp st a b = Except.ok st') : SameFields st' st := by
  rcases hebbianPair_ok_elim qpow cfg amt resp st a b st' hok with h | ⟨r1, r2, hl1, hl2, h⟩ | ⟨eff, h⟩
  · rw [h]
    exact sameFields_refl st
  · rw [h]
    exact sameFields_trans
      (link_memories_ok_fields _ _ _ _ _ _ _ _ _ hl2).1
      (link_memories_ok_fields _ _ _ _ _ _ _ _ _ hl1).1
  · rw [h]
    split_ifs with hc1 hc2 hc3
    · exact sameFields_trans (strengthen_memory_link_fields qpow cfg _ b a (some eff)).1
        (strengthen_memory_link_fields qpow cfg st a b (some eff)).1
    · exact (strengthen_memory_link_fields qpow cfg st b a (some eff)).1
    · exact (strengthen_memory_link_fields qpow cfg st a b (some eff)).1
    · exact sameFields_refl st

/-- A successful `hebbianPair` leaves edges at all other keys unchanged. -/
theorem hebbianPair_edges_ne (qpow : ℚ → ℚ → ℚ) (cfg : PlasticityConfig)
    (amt : Option ℚ) (resp : Bool) (st : GraphState) (a b : String) (st' : GraphState)
    (hok : hebbianPair qpow cfg amt resp st a b = Except.ok st')
    (k : String × String) (hk1 : k ≠ (a, b)) (hk2 : k ≠ (b, a)) :
    st'.edges k = st.edges k := by
  rcases hebbianPair_ok_elim qpow cfg amt resp st a b st' hok with h | ⟨r1, r2, hl1, hl2, h⟩ | ⟨eff, h⟩
  · rw [h]
  · rw [h]
    rw [(link_memories_ok_fields _ _ _ _ _ _ _ _ _ hl2).2 k hk2]
    exact (link_memories_ok_fields _ _ _ _ _ _ _ _ _ hl1).2 k hk1
  · rw [h]
    split_ifs with hc1 hc2 hc3
    · rw [(strengthen_memory_link_fields qpow cfg _ b a (some eff)).2 k hk2]
      exact (strengthen_memory_link_fields qpow cfg st a b (some eff)).2 k hk1
    · exact (strengthen_memory_link_fields qpow cfg st b a (some eff)).2 k hk2
    · exact (strengthen_memory_link_fields qpow cfg st a b (some eff)).2 k hk1
    · rfl

/-- A successful `hebbianPair` keeps all edge strengths within the configured
bounds. -/
theorem hebbianPair_within (qpow : ℚ → ℚ → ℚ) (cfg : PlasticityConfig)
    (amt : Option ℚ) (resp : Bool) (st : GraphState) (a b : String) (st' : GraphState)
    (hb : cfg.min_strength ≤ cfg.max_strength)
    (hok : hebbianPair qpow cfg amt resp st a b = Except.ok st')
    (hW : EdgesWithin st cfg.min_strength cfg.max_strength) :
    EdgesWithin st' cfg.min_strength cfg.max_strength := by
  rcases hebbianPair_ok_elim qpow cfg amt resp st a b st' hok with h | ⟨r1, r2, hl1, hl2, h⟩ | ⟨eff, h⟩
  · rw [h]
    exact hW
  · rw [h]
    rcases getInitialStrength_bounds cfg false none none hb with ⟨hi0, hi1⟩
    exact link_memories_within _ _ _ _ _ _ _ _ _ _ _ hl2
      (link_memories_within _ _ _ _ _ _ _ _ _ _ _ hl1 hW hi0 hi1) hi0 hi1
  · rw [h]
    split_ifs with hc1 hc2 hc3
    · exact strengthen_memory_link_within qpow cfg _ b a (some eff)
        (strengthen_memory_link_within qpow cfg st a b (some eff) hW)
    · exact strengthen_memory_link_within qpow cfg st b a (some eff) hW
    · exact strengthen_memory_link_within qpow cfg st a b (some eff) hW
    · exact hW

/-- Unfolding of `hebbianGo` over an append. -/
theorem hebbianGo_append (qpow : ℚ → ℚ → ℚ) (cfg : PlasticityConfig) (amt : Option ℚ)
    (resp : Bool) (l1 l2 : List (String × String)) (st : GraphState) :
    hebbianGo qpow cfg amt resp (l1 ++ l2) st =
      (match hebbianGo qpow cfg amt resp l1 st with
       | Except.ok st' => hebbianGo qpow cfg amt resp l2 st'
       | Except.error e => Except.error e) := by
  induction l1 generalizing st with
  | nil => rfl
  | cons p ps ih =>
    simp only [List.cons_append, hebbianGo]
    rcases hp : hebbianPair qpow cfg amt resp st p.1 p.2 with e | st1 <;>
      simp only [hp]
    exact ih st1

/-- A successful `hebbianGo` changes no non-edge field. -/
theorem hebbianGo_sameFields (qpow : ℚ → ℚ → ℚ) (cfg : PlasticityConfig) (amt : Option ℚ)
    (resp : Bool) (l : List (String × String)) (st st' : GraphState)
    (hok : hebbianGo qpow cfg amt resp l st = Except.ok st') : SameFields st' st := by
  induction l generalizing st with
  | nil => exact (Except.ok.inj hok).symm ▸ sameFields_refl st
  | cons p ps ih =>
    unfold hebbianGo at hok
    rcases hp : hebbianPair qpow cfg amt resp st p.1 p.2 with e | st1
    · simp only [hp] at hok
      exact absurd hok (by simp)
    · simp only [hp] at hok
      exact sameFields_trans (ih st1 hok)
        (hebbianPair_sameFields qpow cfg amt resp st p.1 p.2 st1 hp)

/-- A successful `hebbianGo` over pairs that never mention the unordered pair
`{a, b}` leaves the edges between `a` and `b` unchanged. -/
theorem hebbianGo_frame (qpow : ℚ → ℚ → ℚ) (cfg : PlasticityConfig) (amt : Option ℚ)
    (resp : Bool) (l : List (String × String)) (st st' : GraphState) (a b : String)
    (hl : ∀ p ∈ l, p ≠ (a, b) ∧ p ≠ (b, a))
    (hok : hebbianGo qpow cfg amt resp l st = Except.ok st') :
    st'.edges (a, b) = st.edges (a, b) ∧ st'.edges (b, a) = st.edges (b, a) := by
  induction l generalizing st with
  | nil =>
    rw [(Except.ok.inj hok).symm]
    exact ⟨rfl, rfl⟩
  | cons p ps ih =>
    unfold hebbianGo at hok
    rcases hp : hebbianPair qpow cfg amt resp st p.1 p.2 with e | st1
    · simp only [hp] at hok
      exact absurd hok (by simp)
    · simp only [hp] at hok
      rcases hl p (List.mem_cons_self p ps) with ⟨hp1, hp2⟩
      have hmk : ∀ u v : String, (u, v) = (p.1, p.2) → p = (u, v) := by
        intro u v h
        rcases Prod.mk.injEq .. ▸ h with ⟨h1, h2⟩
        exact Prod.ext_iff.2 ⟨h1.symm, h2.symm⟩
      have hmk2 : ∀ u v : String, (u, v) = (p.2, p.1) → p = (v, u) := by
        intro u v h
        rcases Prod.mk.injEq .. ▸ h with ⟨h1, h2⟩
        exact Prod.ext_iff.2 ⟨h2.symm, h1.symm⟩
      have hab : ((a, b) : String × String) ≠ (p.1, p.2) := fun hcon => hp1 (hmk a b hcon)
      have hba : ((b, a) : String × String) ≠ (p.1, p.2) := fun hcon => hp2 (hmk b a hcon)
      have hab2 : ((a, b) : String × String) ≠ (p.2, p.1) := fun hcon => hp2 (hmk2 a b hcon)
      have hba2 : ((b, a) : String × String) ≠ (p.2, p.1) := fun hcon => hp1 (hmk2 b a hcon)
      have hstep1 := hebbianPair_edges_ne qpow cfg amt resp st p.1 p.2 st1 hp (a, b) hab hab2
      have hstep2 := hebbianPair_edges_ne qpow cfg amt resp st p.1 p.2 st1 hp (b, a) hba hba2
      rcases ih st1 (fun q hq => hl q (List.mem_cons_of_mem p hq)) hok with ⟨hh1, hh2⟩
      exact ⟨hh1.trans hstep1, hh2.trans hstep2⟩

/-- A successful `hebbianGo` keeps all edge strengths within bounds. -/
theorem hebbianGo_within (qpow : ℚ → ℚ → ℚ) (cfg : PlasticityConfig) (amt : Option ℚ)
    (resp : Bool) (l : List (String × String)) (st st' : GraphState)
    (hb : cfg.min_strength ≤ cfg.max_strength)
    (hok : hebbianGo qpow cfg amt resp l st = Except.ok st')
    (hW : EdgesWithin st cfg.min_strength cfg.max_strength) :
    EdgesWithin st' cfg.min_strength cfg.max_strength := by
  induction l generalizing st with
  | nil => exact (Except.ok.inj hok).symm ▸ hW
  | cons p ps ih =>
    unfold hebbianGo at hok
    rcases hp : hebbianPair qpow cfg amt resp st p.1 p.2 with e | st1
    · simp only [hp] at hok
      exact absurd hok (by simp)
    · simp only [hp] at hok
      exact ih st1 hok
        (hebbianPair_within qpow cfg amt resp st p.1 p.2 st1 hb hp hW)

/-- Both components of a pair produced by `allPairs` are members of the list. -/
theorem mem_allPairs {l : List String} {u v : String} (h : (u, v) ∈ allPairs l) :
    u ∈ l ∧ v ∈ l := by
  induction l with
  | nil => simp [allPairs] at h
  | cons x xs ih =>
    simp only [allPairs, List.mem_append, List.mem_map] at h
    rcases h with ⟨y, hy, heq⟩ | h
    · rcases Prod.mk.injEq .. ▸ heq with ⟨rfl, rfl⟩
      exact ⟨List.mem_cons_self _ _, List.mem_cons_of_mem _ hy⟩
    · rcases ih h with ⟨h1, h2⟩
      exact ⟨List.mem_cons_of_mem _ h1, List.mem_cons_of_mem _ h2⟩

/-- In a duplicate-free list, a produced pair has distinct components. -/
theorem ne_of_mem_allPairs {l : List String} {u v : String} (hnd : l.Nodup)
    (h : (u, v) ∈ allPairs l) : u ≠ v := by
  induction l with
  | nil => simp [allPairs] at h
  | cons x xs ih =>
    rw [List.nodup_cons] at hnd
    obtain ⟨hx, hxs⟩ := hnd
    simp only [allPairs, List.mem_append, List.mem_map] at h
    rcases h with ⟨y, hy, heq⟩ | h
    · rcases Prod.mk.injEq .. ▸ heq with ⟨rfl, rfl⟩
      intro hcon
      exact hx (hcon ▸ hy)
    · exact ih hxs h

/-- In a duplicate-free list, the pair list splits around any member with all
other entries aliasing neither `(a,b)` nor `(b,a)`. -/
theorem allPairs_split {l : List String} {a b : String} (hnd : l.Nodup)
    (hmem : (a, b) ∈ allPairs l) :
    ∃ l1 l2, allPairs l = l1 ++ (a, b) :: l2 ∧
      ∀ p ∈ l1 ++ l2, p ≠ (a, b) ∧ p ≠ (b, a) := by
  induction l with
  | nil => simp [allPairs] at hmem
  | cons x xs ih =>
    rw [List.nodup_cons] at hnd
    obtain ⟨hx, hxs⟩ := hnd
    simp only [allPairs, List.mem_append, List.mem_map] at hmem
    rcases hmem with ⟨y, hy, heq⟩ | hmem
    · rcases Prod.mk.injEq .. ▸ heq with ⟨rfl, rfl⟩
      have hxy : x ≠ y := fun hcon => hx (hcon ▸ hy)
      obtain ⟨u, w, rfl⟩ := List.append_of_mem hy
      have hnodups := hxs
      rw [List.nodup_append] at hnodups
      obtain ⟨hu, hyw, hdisj⟩ := hnodups
      have hyu : y ∉ u := fun hc => hdisj hc (List.mem_cons_self y w)
      have hyw' : y ∉ w := (List.nodup_cons.1 hyw).1
      refine ⟨u.map (fun z => (x, z)),
        w.map (fun z => (x, z)) ++ allPairs (u ++ y :: w), ?_, ?_⟩
      · simp [allPairs, List.map_append, List.append_assoc]
      · intro p hp
        simp only [List.mem_append, List.mem_map] at hp
        rcases hp with ⟨z, hzu, rfl⟩ | ⟨z, hzw, rfl⟩ | hp
        · constructor
          · intro hcon
            have : z = y := congrArg Prod.snd hcon
            exact hyu (this ▸ hzu)
          · intro hcon
            exact hxy (congrArg Prod.fst hcon)
        · constructor
          · intro hcon
            have : z = y := congrArg Prod.snd hcon
            exact hyw' (this ▸ hzw)
          · intro hcon
            exact hxy (congrArg Prod.fst hcon)
        · rcases mem_allPairs hp with ⟨h1, h2⟩
          constructor
          · intro hcon
            rw [hcon] at h1
            exact hx h1
          · intro hcon
            rw [hcon] at h2
            exact hx h2
    · rcases mem_allPairs hmem with ⟨ha, hb⟩
      obtain ⟨l1, l2, heq, hno⟩ := ih hxs hmem
      refine ⟨xs.map (fun z => (x, z)) ++ l1, l2, ?_, ?_⟩
      · simp [allPairs, heq, List.append_assoc]
      · intro p hp
        simp only [List.mem_append, List.mem_map] at hp
        rcases hp with (⟨z, hzx, rfl⟩ | hp) | hp
        · constructor
          · intro hcon
            have : x = a := congrArg Prod.fst hcon
            exact hx (this ▸ ha)
          · intro hcon
            have : x = b := congrArg Prod.fst hcon
            exact hx (this ▸ hb)
        · exact hno p (List.mem_append.2 (Or.inl hp))
        · exact hno p (List.mem_append.2 (Or.inr hp))

/-- A configuration whose strength ceiling is lowered to 0.8. -/
def cfgMax45 : PlasticityConfig := { max_strength := 4/5 }

/-- Two memories and no edges, for exercising `link_memories`. -/
def linkCexState : GraphState :=
  { emptyState with memExists := fun x => x == "a" || x == "b" }

/-- Counterexample to claim C3 as stated: with `max_strength = 0.8`,
`link_memories` accepts strength 0.9 (it validates against [0,1], not against
[min_strength, max_strength]) and stores it, so the stored RELATES_TO
strength lies outside the claim's declared interval
`[min_strength, max_strength]`. -/
theorem C3_counterexample :
    (match link_memories linkCexState "a" "b" (9/10) "" none false with
     | Except.ok r => (r.2.edges ("a", "b")).map Edge.strength
     | Except.error _ => none) = some (9/10) ∧
    ¬(9/10 : ℚ) ≤ cfgMax45.max_strength := by
  constructor
  · rw [link_memories_creates linkCexState "a" "b" (9/10) "" none (by norm_num)
      (by norm_num) rfl rfl rfl]
    simp [linkWrite]
  · norm_num [cfgMax45]

/-- Claim C3 (amended): every covered write path keeps its bounded property
within the interval the operation itself enforces, for every prior in-range
state: `link_*` stores RELATES_TO strengths within its validated [0,1] range
(not within [min_strength, max_strength], see the counterexample);
`strengthen_memory_link`, `weaken_memory_link`, `decay_weak_connections`,
`prune_dead_connections` and `apply_hebbian_learning` keep RELATES_TO
strengths within [min_strength, max_strength]; HAS_CONCEPT relevance stays in
[0,1]; Preference strength stays in [-1,1] under the dataclass-validated
input range. -/
theorem C3_amended_bounds :
    (∀ st a b v rt pm ck r st', link_memories st a b v rt pm ck = Except.ok (r, st') →
      EdgesWithin st 0 1 → EdgesWithin st' 0 1) ∧
    (∀ qpow cfg st a b amt, EdgesWithin st cfg.min_strength cfg.max_strength →
      EdgesWithin (strengthen_memory_link qpow cfg st a b amt)
        cfg.min_strength cfg.max_strength) ∧
    (∀ qpow cfg st a b amt, EdgesWithin st cfg.min_strength cfg.max_strength →
      EdgesWithin (weaken_memory_link qpow cfg st a b amt)
        cfg.min_strength cfg.max_strength) ∧
    (∀ qpow cfg st thr da, EdgesWithin st cfg.min_strength cfg.max_strength →
      EdgesWithin (decay_weak_connections qpow cfg st thr da)
        cfg.min_strength cfg.max_strength) ∧
    (∀ cfg st ms lo hi, EdgesWithin st lo hi →
      EdgesWithin (prune_dead_connections cfg st ms) lo hi) ∧
    (∀ qpow cfg st ids amt resp st', cfg.min_strength ≤ cfg.max_strength →
      apply_hebbian_learning qpow cfg st ids amt resp = Except.ok st' →
      EdgesWithin st cfg.min_strength cfg.max_strength →
      EdgesWithin st' cfg.min_strength cfg.max_strength) ∧
    (∀ st p, -1 ≤ PrefRow.strength p → PrefRow.strength p ≤ 1 → PrefsWithin st →
      PrefsWithin (create_preference st p).2) ∧
    (∀ qpow cfg st m c amt, RelevanceWithin st →
      RelevanceWithin (strengthen_concept_relevance qpow cfg st m c amt)) ∧
    (∀ qpow cfg st m c amt, RelevanceWithin st →
      RelevanceWithin (weaken_concept_relevance qpow cfg st m c amt)) := by
  refine ⟨?_, strengthen_memory_link_within, weaken_memory_link_within,
    decay_weak_connections_within, prune_dead_connections_within, ?_,
    create_preference_within, strengthen_concept_relevance_within,
    weaken_concept_relevance_within⟩
  · intro st a b v rt pm ck r st' hok hW
    rcases link_memories_ok_valid st a b v rt pm ck r st' hok with ⟨h0, h1⟩
    exact link_memories_within st a b v rt pm ck r st' 0 1 hok hW h0 h1
  · intro qpow cfg st ids amt resp st' hb hok hW
    exact hebbianGo_within qpow cfg amt resp (allPairs ids) st st' hb hok hW

/-- Witness for C3 at a concrete strengthen on `relinkState`. -/
theorem C3_witness :
    EdgesWithin (strengthen_memory_link qpowTrivial {} relinkState "a" "b" none)
      ({} : PlasticityConfig).min_strength ({} : PlasticityConfig).max_strength :=
  C3_amended_bounds.2.1 qpowTrivial {} relinkState "a" "b" none (by
    intro k e he
    have hlook : relinkState.edges k =
        if k = ("a", "b") then some ⟨1/2, "hebbian", Permeability.OPEN⟩ else none := rfl
    rw [hlook] at he
    split_ifs at he
    have he' : (⟨1/2, "hebbian", Permeability.OPEN⟩ : Edge) = e := by simpa using he
    rw [← he']
    constructor <;> norm_num)

/-- When neither direction exists, creation is enabled and (if respected)
allowed, `hebbianPair` creates both directed edges at the implicit initial
strength with relType "hebbian". -/
theorem hebbianPair_creates (qpow : ℚ → ℚ → ℚ) (cfg : PlasticityConfig) (amt : Option ℚ)
    (resp : Bool) (st : GraphState) (a b : String) (hab : a ≠ b)
    (hfwd : st.edges (a, b) = none) (hrev : st.edges (b, a) = none)
    (hea : st.memExists a = true) (heb : st.memExists b = true)
    (hcr : cfg.hebbian_creates_connections = true)
    (hallow : resp = true → can_form_connection st a b = true)
    (h0 : 0 ≤ cfg.getInitialStrength false none none)
    (h1 : cfg.getInitialStrength false none none ≤ 1) :
    hebbianPair qpow cfg amt resp st a b =
      Except.ok (linkWrite
        (linkWrite st a b (cfg.getInitialStrength false none none) "hebbian" none)
        b a (cfg.getInitialStrength false none none) "hebbian" none) := by
  have hsf : get_memory_link_strength st a b = none := by
    simp [get_memory_link_strength, hfwd]
  have hsr : get_memory_link_strength st b a = none := by
    simp [get_memory_link_strength, hrev]
  have hne2 : (linkWrite st a b (cfg.getInitialStrength false none none)
      "hebbian" none).edges (b, a) = none := by
    dsimp only [linkWrite]
    rw [if_neg (fun h => hab (congrArg Prod.snd h))]
    exact hrev
  unfold hebbianPair
  dsimp only
  rw [if_pos (by rw [hsf, hsr, hcr]; simp)]
  rw [if_neg (by
    cases hresp : resp
    · simp
    · rw [hallow hresp]
      simp)]
  rw [link_memories_creates st a b (cfg.getInitialStrength false none none)
    "hebbian" none h0 h1 hfwd hea heb]
  dsimp only
  rw [link_memories_creates _ b a (cfg.getInitialStrength false none none)
    "hebbian" none h0 h1 hne2 heb hea]

/-- When neither direction exists, `respect_compartments` is on and formation
is denied, `hebbianPair` does nothing.  The same holds when creation is
disabled. -/
theorem hebbianPair_no_creation (qpow : ℚ → ℚ → ℚ) (cfg : PlasticityConfig)
    (amt : Option ℚ) (st : GraphState) (a b : String)
    (hfwd : st.edges (a, b) = none) (hrev : st.edges (b, a) = none)
    (hcf : can_form_connection st a b = false) :
    hebbianPair qpow cfg amt true st a b = Except.ok st := by
  have hsf : get_memory_link_strength st a b = none := by
    simp [get_memory_link_strength, hfwd]
  have hsr : get_memory_link_strength st b a = none := by
    simp [get_memory_link_strength, hrev]
  unfold hebbianPair
  dsimp only
  by_cases hcr : cfg.hebbian_creates_connections = true
  · rw [if_pos (by rw [hsf, hsr, hcr]; simp)]
    rw [if_pos (by rw [hcf]; simp)]
  · have hcr' : cfg.hebbian_creates_connections = false :=
      Bool.eq_false_iff.2 (fun h => hcr h)
    rw [if_neg (by rw [hsf, hsr, hcr']; simp)]
    rw [if_neg (by rw [hsf, hsr]; simp)]

/-- Claim C5: for every pair (a, b) of the memory_ids with no RELATES_TO
edge in either direction, if `hebbian_creates_connections` is enabled and
(when `respect_compartments` is set) `can_form_connection` permits, then
`apply_hebbian_learning` creates both directed edges at the implicit initial
strength with relType "hebbian"; and when `respect_compartments` is set and
formation is denied, no edge appears between them.  Stated for
duplicate-free id lists over existing Memory nodes, with an initial strength
that passes the [0,1] link validation. -/
theorem C5_hebbian_pair_creation (qpow : ℚ → ℚ → ℚ) (cfg : PlasticityConfig)
    (amt : Option ℚ) (resp : Bool) (st : GraphState) (ids : List String)
    (a b : String) (st' : GraphState)
    (hnd : ids.Nodup) (hmem : (a, b) ∈ allPairs ids)
    (hfwd : st.edges (a, b) = none) (hrev : st.edges (b, a) = none)
    (hea : st.memExists a = true) (heb : st.memExists b = true)
    (h0 : 0 ≤ cfg.getInitialStrength false none none)
    (h1 : cfg.getInitialStrength false none none ≤ 1)
    (hok : apply_hebbian_learning qpow cfg st ids amt resp = Except.ok st') :
    (cfg.hebbian_creates_connections = true →
      (resp = true → can_form_connection st a b = true) →
      st'.edges (a, b) =
        some ⟨cfg.getInitialStrength false none none, "hebbian", Permeability.OPEN⟩ ∧
      st'.edges (b, a) =
        some ⟨cfg.getInitialStrength false none none, "hebbian", Permeability.OPEN⟩) ∧
    (resp = true → can_form_connection st a b = false →
      st'.edges (a, b) = none ∧ st'.edges (b, a) = none) := by
  have hab : a ≠ b := ne_of_mem_allPairs hnd hmem
  obtain ⟨l1, l2, hsplit, hno⟩ := allPairs_split hnd hmem
  unfold apply_hebbian_learning at hok
  rw [hsplit, hebbianGo_append] at hok
  rcases hg1 : hebbianGo qpow cfg amt resp l1 st with e | s1
  · simp only [hg1] at hok
    exact absurd hok (by simp)
  · simp only [hg1] at hok
    have hsame := hebbianGo_sameFields qpow cfg amt resp l1 st s1 hg1
    have hframe := hebbianGo_frame qpow cfg amt resp l1 st s1 a b
      (fun p hp => hno p (List.mem_append.2 (Or.inl hp))) hg1
    have hfwd1 : s1.edges (a, b) = none := hframe.1.trans hfwd
    have hrev1 : s1.edges (b, a) = none := hframe.2.trans hrev
    have hea1 : s1.memExists a = true := by rw [hsame.1]; exact hea
    have heb1 : s1.memExists b = true := by rw [hsame.1]; exact heb
    have hcf1 : can_form_connection s1 a b = can_form_connection st a b :=
      can_form_connection_congr st s1 a b hsame.2.2.1
    unfold hebbianGo at hok
    dsimp only at hok
    constructor
    · intro hcr hallow
      have hpair := hebbianPair_creates qpow cfg amt resp s1 a b hab hfwd1 hrev1
        hea1 heb1 hcr (fun hresp => hcf1.trans (hallow hresp)) h0 h1
      simp only [hpair] at hok
      have hframe2 := hebbianGo_frame qpow cfg amt resp l2 _ st' a b
        (fun p hp => hno p (List.mem_append.2 (Or.inr hp))) hok
      constructor
      · rw [hframe2.1]
        dsimp only [linkWrite]
        rw [if_neg (fun h => hab (congrArg Prod.fst h)), if_pos rfl]
        rfl
      · rw [hframe2.2]
        dsimp only [linkWrite]
        rw [if_pos rfl]
        rfl
    · intro hresp hcf
      subst hresp
      have hpair := hebbianPair_no_creation qpow cfg amt s1 a b hfwd1 hrev1
        (hcf1.trans hcf)
      simp only [hpair] at hok
      have hframe2 := hebbianGo_frame qpow cfg amt true l2 s1 st' a b
        (fun p hp => hno p (List.mem_append.2 (Or.inr hp))) hok
      exact ⟨hframe2.1.trans hfwd1, hframe2.2.trans hrev1⟩

/-- Witness for C5: hebbian learning over ["a", "b"] on a two-node graph with
no edges creates both hebbian edges at the implicit initial strength. -/
theorem C5_witness :
    (linkWrite (linkWrite linkCexState "a" "b"
        (({} : PlasticityConfig).getInitialStrength false none none) "hebbian" none)
      "b" "a" (({} : PlasticityConfig).getInitialStrength false none none)
      "hebbian" none).edges ("a", "b") =
      some ⟨({} : PlasticityConfig).getInitialStrength false none none, "hebbian",
        Permeability.OPEN⟩ := by
  have h0 : 0 ≤ ({} : PlasticityConfig).getInitialStrength false none none := by
    unfold PlasticityConfig.getInitialStrength
    norm_num
  have h1 : ({} : PlasticityConfig).getInitialStrength false none none ≤ 1 := by
    unfold PlasticityConfig.getInitialStrength
    norm_num
  have happly : apply_hebbian_learning qpowTrivial {} linkCexState ["a", "b"] none true =
      Except.ok (linkWrite (linkWrite linkCexState "a" "b"
        (({} : PlasticityConfig).getInitialStrength false none none) "hebbian" none)
      "b" "a" (({} : PlasticityConfig).getInitialStrength false none none)
      "hebbian" none) := by
    unfold apply_hebbian_learning
    have hpair := hebbianPair_creates qpowTrivial {} none true linkCexState "a" "b"
      (by decide) rfl rfl rfl rfl rfl (fun _ => rfl) h0 h1
    show hebbianGo qpowTrivial {} none true [("a", "b")] linkCexState = _
    unfold hebbianGo
    rw [hpair]
    rfl
  exact (C5_hebbian_pair_creation qpowTrivial {} none true linkCexState ["a", "b"]
    "a" "b" _ (by decide) (by decide) rfl rfl rfl rfl h0 h1 happly).1 rfl (fun _ => rfl) |>.1

/-- When the forward edge exists with nonzero strength, `hebbianPair` runs
the strengthen branch: both existing directions are strengthened with the
same resolved amount `X` (the supplied truthy amount, else
`effective_amount('hebbian', forward strength)`). -/
theorem hebbianPair_strengthens (qpow : ℚ → ℚ → ℚ) (cfg : PlasticityConfig)
    (amt : Option ℚ) (resp : Bool) (st : GraphState) (a b : String) (ef : Edge) (X : ℚ)
    (hfwd : st.edges (a, b) = some ef) (hs0 : ef.strength ≠ 0)
    (hX : (if pyTruthy amt = true then amt
           else some (cfg.effectiveAmount qpow PlasticityContext.hebbian ef.strength)) =
          some X) :
    hebbianPair qpow cfg amt resp st a b = Except.ok
      (if (get_memory_link_strength st b a).isSome = true then
        strengthen_memory_link qpow cfg
          (strengthen_memory_link qpow cfg st a b (some X)) b a (some X)
       else strengthen_memory_link qpow cfg st a b (some X)) := by
  have hsf : get_memory_link_strength st a b = some ef.strength := by
    simp [get_memory_link_strength, hfwd]
  have hscrut : (if pyTruthy amt = true then amt
      else effectiveAmountPy qpow cfg PlasticityContext.hebbian
        (pyOrOpt (get_memory_link_strength st a b)
          (get_memory_link_strength st b a))) = some X := by
    rw [hsf]
    have hpy : pyOrOpt (some ef.strength) (get_memory_link_strength st b a) =
        some ef.strength := by
      unfold pyOrOpt
      dsimp only
      rw [if_neg hs0]
    rw [hpy]
    exact hX
  unfold hebbianPair
  dsimp only
  rw [if_neg (by rw [hsf]; simp)]
  rw [if_pos (by rw [hsf]; simp)]
  rw [hscrut]
  dsimp only
  simp only [hsf, Option.isSome_some, eq_self_iff_true, if_true]

/-- When an edge exists in at least one direction and the Python-resolved
effective amount is `X` (the `amount` argument when truthy, otherwise
`effective_amount('hebbian', strength_fwd or strength_rev)` with `0.0`
falsy), `hebbianPair` strengthens whichever directions exist with `some X`,
forward first, both strengths read from the pre-state. -/
theorem hebbianPair_strengthen_both (qpow : ℚ → ℚ → ℚ) (cfg : PlasticityConfig)
    (amt : Option ℚ) (resp : Bool) (st : GraphState) (a b : String) (X : ℚ)
    (hconn : ((st.edges (a, b)).isSome || (st.edges (b, a)).isSome) = true)
    (hX : (if pyTruthy amt = true then amt
           else effectiveAmountPy qpow cfg PlasticityContext.hebbian
                  (pyOrOpt ((st.edges (a, b)).map Edge.strength)
                           ((st.edges (b, a)).map Edge.strength))) = some X) :
    hebbianPair qpow cfg amt resp st a b = Except.ok
      (if (st.edges (b, a)).isSome = true then
        strengthen_memory_link qpow cfg
          (if (st.edges (a, b)).isSome = true then
            strengthen_memory_link qpow cfg st a b (some X) else st) b a (some X)
       else
        (if (st.edges (a, b)).isSome = true then
          strengthen_memory_link qpow cfg st a b (some X) else st)) := by
  rcases hf : st.edges (a, b) with _ | ef
  · rcases hr : st.edges (b, a) with _ | er
    · rw [hf, hr] at hconn
      simp at hconn
    · have hsf : get_memory_link_strength st a b = none := by
        simp [get_memory_link_strength, hf]
      have hsr : get_memory_link_strength st b a = some er.strength := by
        simp [get_memory_link_strength, hr]
      rw [hf, hr] at hX
      simp only [Option.map_none', Option.map_some'] at hX
      unfold hebbianPair
      dsimp only
      rw [if_neg (by rw [hsf, hsr]; simp)]
      rw [if_pos (by rw [hsf, hsr]; simp)]
      rw [hsf, hsr]
      simp only [hX]
      simp only [Option.isSome_some, Option.isSome_none]
  · rcases hr : st.edges (b, a) with _ | er
    · have hsf : get_memory_link_strength st a b = some ef.strength := by
        simp [get_memory_link_strength, hf]
      have hsr : get_memory_link_strength st b a = none := by
        simp [get_memory_link_strength, hr]
      rw [hf, hr] at hX
      simp only [Option.map_none', Option.map_some'] at hX
      unfold hebbianPair
      dsimp only
      rw [if_neg (by rw [hsf, hsr]; simp)]
      rw [if_pos (by rw [hsf, hsr]; simp)]
      rw [hsf, hsr]
      simp only [hX]
      simp only [Option.isSome_some, Option.isSome_none]
    · have hsf : get_memory_link_strength st a b = some ef.strength := by
        simp [get_memory_link_strength, hf]
      have hsr : get_memory_link_strength st b a = some er.strength := by
        simp [get_memory_link_strength, hr]
      rw [hf, hr] at hX
      simp only [Option.map_some'] at hX
      unfold hebbianPair
      dsimp only
      rw [if_neg (by rw [hsf, hsr]; simp)]
      rw [if_pos (by rw [hsf, hsr]; simp)]
      rw [hsf, hsr]
      simp only [hX]
      simp only [Option.isSome_some]

/-- Claim C6 (amended): for every pair (a, b) of a duplicate-free memory_ids
list with a RELATES_TO edge in at least one direction, each existing
direction's strength becomes `min(max_strength, s + X · learning_rate)` (no
write when `X · learning_rate ≤ 0`) and a missing direction stays missing,
where `X` is the supplied amount when it is truthy (non-`None`, nonzero) and
otherwise `effective_amount('hebbian', strength_fwd or strength_rev)`
resolved with Python `or` (`0.0` is falsy); the extra `learning_rate` factor
comes from delegating to `strengthen_memory_link`. -/
theorem C6_amended_hebbian_strengthen (qpow : ℚ → ℚ → ℚ) (cfg : PlasticityConfig)
    (amt : Option ℚ) (resp : Bool) (st : GraphState) (ids : List String)
    (a b : String) (st' : GraphState) (X : ℚ)
    (hnd : ids.Nodup) (hmem : (a, b) ∈ allPairs ids)
    (hconn : ((st.edges (a, b)).isSome || (st.edges (b, a)).isSome) = true)
    (hX : (if pyTruthy amt = true then amt
           else effectiveAmountPy qpow cfg PlasticityContext.hebbian
                  (pyOrOpt ((st.edges (a, b)).map Edge.strength)
                           ((st.edges (b, a)).map Edge.strength))) = some X)
    (hok : apply_hebbian_learning qpow cfg st ids amt resp = Except.ok st') :
    ((st.edges (a, b) = none → st'.edges (a, b) = none) ∧
      ∀ e, st.edges (a, b) = some e →
        st'.edges (a, b) = some (if X * cfg.learning_rate ≤ 0 then e
          else clampIncrease cfg e (X * cfg.learning_rate))) ∧
    ((st.edges (b, a) = none → st'.edges (b, a) = none) ∧
      ∀ e, st.edges (b, a) = some e →
        st'.edges (b, a) = some (if X * cfg.learning_rate ≤ 0 then e
          else clampIncrease cfg e (X * cfg.learning_rate))) := by
  have hab : a ≠ b := ne_of_mem_allPairs hnd hmem
  have hba_ne : ((a, b) : String × String) ≠ (b, a) := fun h => hab (congrArg Prod.fst h)
  have hab_ne : ((b, a) : String × String) ≠ (a, b) := fun h => hab (congrArg Prod.snd h)
  obtain ⟨l1, l2, hsplit, hno⟩ := allPairs_split hnd hmem
  unfold apply_hebbian_learning at hok
  rw [hsplit, hebbianGo_append] at hok
  rcases hg1 : hebbianGo qpow cfg amt resp l1 st with e | s1
  · simp only [hg1] at hok
    exact absurd hok (by simp)
  · simp only [hg1] at hok
    have hframe := hebbianGo_frame qpow cfg amt resp l1 st s1 a b
      (fun p hp => hno p (List.mem_append.2 (Or.inl hp))) hg1
    have hs1f : s1.edges (a, b) = st.edges (a, b) := hframe.1
    have hs1r : s1.edges (b, a) = st.edges (b, a) := hframe.2
    have hconn1 : ((s1.edges (a, b)).isSome || (s1.edges (b, a)).isSome) = true := by
      rw [hs1f, hs1r]; exact hconn
    have hX1 : (if pyTruthy amt = true then amt
           else effectiveAmountPy qpow cfg PlasticityContext.hebbian
                  (pyOrOpt ((s1.edges (a, b)).map Edge.strength)
                           ((s1.edges (b, a)).map Edge.strength))) = some X := by
      rw [hs1f, hs1r]; exact hX
    have hpair := hebbianPair_strengthen_both qpow cfg amt resp s1 a b X hconn1 hX1
    unfold hebbianGo at hok
    dsimp only at hok
    rcases hfw : st.edges (a, b) with _ | ef
    · rcases hrv : st.edges (b, a) with _ | er
      · rw [hfw, hrv] at hconn
        simp at hconn
      · have h1 : (s1.edges (a, b)).isSome = false := by rw [hs1f, hfw]; rfl
        have h2 : (s1.edges (b, a)).isSome = true := by rw [hs1r, hrv]; rfl
        have hrev1 : s1.edges (b, a) = some er := by rw [hs1r, hrv]
        have hpair' : hebbianPair qpow cfg amt resp s1 a b = Except.ok
            (strengthen_memory_link qpow cfg s1 b a (some X)) := by
          rw [hpair, h1, h2, if_pos rfl, if_neg Bool.false_ne_true]
        simp only [hpair'] at hok
        have hframe2 := hebbianGo_frame qpow cfg amt resp l2 _ st' a b
          (fun p hp => hno p (List.mem_append.2 (Or.inr hp))) hok
        refine ⟨⟨fun _ => ?_, fun e he => absurd he (by simp)⟩,
          fun h => absurd h (by simp), fun e he => ?_⟩
        · rw [hframe2.1,
            (strengthen_memory_link_fields qpow cfg s1 b a (some X)).2 (a, b) hba_ne,
            hs1f, hfw]
        · have he' : er = e := Option.some_inj.1 he
          rw [hframe2.2, strengthen_memory_link_lookup qpow cfg s1 b a X er hrev1, he']
    · rcases hrv : st.edges (b, a) with _ | er
      · have h1 : (s1.edges (a, b)).isSome = true := by rw [hs1f, hfw]; rfl
        have h2 : (s1.edges (b, a)).isSome = false := by rw [hs1r, hrv]; rfl
        have hfwd1 : s1.edges (a, b) = some ef := by rw [hs1f, hfw]
        have hpair' : hebbianPair qpow cfg amt resp s1 a b = Except.ok
            (strengthen_memory_link qpow cfg s1 a b (some X)) := by
          rw [hpair, h1, h2, if_neg Bool.false_ne_true, if_pos rfl]
        simp only [hpair'] at hok
        have hframe2 := hebbianGo_frame qpow cfg amt resp l2 _ st' a b
          (fun p hp => hno p (List.mem_append.2 (Or.inr hp))) hok
        refine ⟨⟨fun h => absurd h (by simp), fun e he => ?_⟩,
          fun _ => ?_, fun e he => absurd he (by simp)⟩
        · have he' : ef = e := Option.some_inj.1 he
          rw [hframe2.1, strengthen_memory_link_lookup qpow cfg s1 a b X ef hfwd1, he']
        · rw [hframe2.2,
            (strengthen_memory_link_fields qpow cfg s1 a b (some X)).2 (b, a) hab_ne,
            hs1r, hrv]
      · have h1 : (s1.edges (a, b)).isSome = true := by rw [hs1f, hfw]; rfl
        have h2 : (s1.edges (b, a)).isSome = true := by rw [hs1r, hrv]; rfl
        have hfwd1 : s1.edges (a, b) = some ef := by rw [hs1f, hfw]
        have hrev1 : s1.edges (b, a) = some er := by rw [hs1r, hrv]
        have hpair' : hebbianPair qpow cfg amt resp s1 a b = Except.ok
            (strengthen_memory_link qpow cfg
              (strengthen_memory_link qpow cfg s1 a b (some X)) b a (some X)) := by
          rw [hpair, h1, h2, if_pos rfl, if_pos rfl]
        simp only [hpair'] at hok
        have hframe2 := hebbianGo_frame qpow cfg amt resp l2 _ st' a b
          (fun p hp => hno p (List.mem_append.2 (Or.inr hp))) hok
        have hrev2 : (strengthen_memory_link qpow cfg s1 a b (some X)).edges (b, a) =
            some er := by
          rw [(strengthen_memory_link_fields qpow cfg s1 a b (some X)).2 (b, a) hab_ne]
          exact hrev1
        refine ⟨⟨fun h => absurd h (by simp), fun e he => ?_⟩,
          fun h => absurd h (by simp), fun e he => ?_⟩
        · have he' : ef = e := Option.some_inj.1 he
          rw [hframe2.1,
            (strengthen_memory_link_fields qpow cfg _ b a (some X)).2 (a, b) hba_ne,
            strengthen_memory_link_lookup qpow cfg s1 a b X ef hfwd1, he']
        · have he' : er = e := Option.some_inj.1 he
          rw [hframe2.2, strengthen_memory_link_lookup qpow cfg _ b a X er hrev2, he']

/-- A configuration with learning rate one half (LINEAR curve). -/
def cfgHalf : PlasticityConfig := { learning_rate := 1/2 }

/-- A state with one edge "a" → "b" at strength 0.5 for the C6 scenario. -/
def hebbCexState : GraphState :=
  { emptyState with
    memExists := fun x => x == "a" || x == "b"
    edges := fun k => if k = ("a", "b") then some ⟨1/2, "", Permeability.OPEN⟩ else none }

/-- Counterexample to claim C6 as stated: with learning_rate = 1/2 and no
amount argument, the existing edge is strengthened by
`learning_rate · effective_amount('hebbian', s)` — the already-scaled amount
is scaled by the learning rate again inside `strengthen_memory_link` — not
by `effective_amount('hebbian', s)` as claimed (0.5 becomes 0.5125, not
0.525). -/
theorem C6_counterexample :
    (match apply_hebbian_learning qpowTrivial cfgHalf hebbCexState ["a", "b"] none true with
     | Except.ok s => (s.edges ("a", "b")).map Edge.strength
     | Except.error _ => none) ≠
      some (1/2 + cfgHalf.effectiveAmount qpowTrivial PlasticityContext.hebbian (1/2)) := by
  have hX : cfgHalf.effectiveAmount qpowTrivial PlasticityContext.hebbian (1/2) = 1/40 := by
    unfold PlasticityConfig.effectiveAmount PlasticityConfig.applyCurve
    norm_num [PlasticityContext.baseAmount, PlasticityContext.forIncrease, cfgHalf]
  have hfwd : hebbCexState.edges ("a", "b") = some ⟨1/2, "", Permeability.OPEN⟩ := by
    simp [hebbCexState, emptyState]
  have hpair := hebbianPair_strengthens qpowTrivial cfgHalf none true hebbCexState "a" "b"
    ⟨1/2, "", Permeability.OPEN⟩
    (cfgHalf.effectiveAmount qpowTrivial PlasticityContext.hebbian (1/2))
    hfwd (by norm_num) rfl
  have happly : apply_hebbian_learning qpowTrivial cfgHalf hebbCexState ["a", "b"] none true =
      Except.ok (strengthen_memory_link qpowTrivial cfgHalf hebbCexState "a" "b"
        (some (cfgHalf.effectiveAmount qpowTrivial PlasticityContext.hebbian (1/2)))) := by
    unfold apply_hebbian_learning
    show hebbianGo qpowTrivial cfgHalf none true [("a", "b")] hebbCexState = _
    simp only [hebbianGo, hpair]
    have hsr : (get_memory_link_strength hebbCexState "b" "a").isSome = false := rfl
    rw [hsr, if_neg Bool.false_ne_true]
  rw [happly]
  dsimp only
  rw [strengthen_memory_link_lookup qpowTrivial cfgHalf hebbCexState "a" "b" _ _ hfwd]
  rw [hX]
  norm_num [clampIncrease, cfgHalf]

/-- Witness for C6 (amended) at the default configuration on `relinkState`. -/
theorem C6_witness :
    (strengthen_memory_link qpowTrivial {} relinkState "a" "b"
        (some (({} : PlasticityConfig).effectiveAmount qpowTrivial
          PlasticityContext.hebbian (1/2)))).edges ("a", "b") =
      some (if (({} : PlasticityConfig).effectiveAmount qpowTrivial
            PlasticityContext.hebbian (1/2)) * ({} : PlasticityConfig).learning_rate ≤ 0
        then ⟨1/2, "hebbian", Permeability.OPEN⟩
        else clampIncrease {} ⟨1/2, "hebbian", Permeability.OPEN⟩
          ((({} : PlasticityConfig).effectiveAmount qpowTrivial
            PlasticityContext.hebbian (1/2)) * ({} : PlasticityConfig).learning_rate)) := by
  have hfwd : relinkState.edges ("a", "b") = some ⟨1/2, "hebbian", Permeability.OPEN⟩ := rfl
  have hXW : (if pyTruthy (none : Option ℚ) = true then (none : Option ℚ)
      else effectiveAmountPy qpowTrivial {} PlasticityContext.hebbian
        (pyOrOpt ((relinkState.edges ("a", "b")).map Edge.strength)
                 ((relinkState.edges ("b", "a")).map Edge.strength))) =
      some (({} : PlasticityConfig).effectiveAmount qpowTrivial
        PlasticityContext.hebbian (1/2)) := by
    show effectiveAmountPy qpowTrivial {} PlasticityContext.hebbian
        (pyOrOpt (some (1/2)) none) = _
    unfold pyOrOpt
    dsimp only
    rw [if_neg (by norm_num : ¬((1/2 : ℚ) = 0))]
    rfl
  have hpair := hebbianPair_strengthens qpowTrivial {} none true relinkState "a" "b"
    ⟨1/2, "hebbian", Permeability.OPEN⟩
    (({} : PlasticityConfig).effectiveAmount qpowTrivial PlasticityContext.hebbian (1/2))
    hfwd (by norm_num) rfl
  have happly : apply_hebbian_learning qpowTrivial {} relinkState ["a", "b"] none true =
      Except.ok (strengthen_memory_link qpowTrivial {} relinkState "a" "b"
        (some (({} : PlasticityConfig).effectiveAmount qpowTrivial
          PlasticityContext.hebbian (1/2)))) := by
    unfold apply_hebbian_learning
    show hebbianGo qpowTrivial {} none true [("a", "b")] relinkState = _
    simp only [hebbianGo, hpair]
    have hsr : (get_memory_link_strength relinkState "b" "a").isSome = false := rfl
    rw [hsr, if_neg Bool.false_ne_true]
  exact (C6_amended_hebbian_strengthen qpowTrivial {} none true relinkState ["a", "b"]
    "a" "b" _ _ (by decide) (by decide) rfl hXW happly).1.2
    ⟨1/2, "hebbian", Permeability.OPEN⟩ hfwd

end Axons
